import Mathlib

/-!
Verification of the MoltGrid coordination backplane against its
specification.  The CLI credential logic (src/cli/moltgrid-cli.py) is
embedded directly from its source.  The server core (main.py) is not part
of the source tree — only its test suite (src/test_main.py), the CLI and
examples are — so the server operations are modelled from the
specification (each such definition says so in its doc comment) and
checked against the behaviours asserted by src/test_main.py.
-/

namespace MoltGrid

/-! ## CLI credential handling, embedded from src/cli/moltgrid-cli.py -/

/-- Python truthiness of an optional string: None and the empty string are
falsy (`if not api_key`). -/
def pyTruthy : Option String → Bool
  | none => false
  | some s => !s.isEmpty

/-- The two fields of HOME/.moltgrid/config.json that get_client reads via
load_config; a missing file or a missing field is `none`. -/
structure CliConfig where
  api_key : Option String
  base_url : Option String
deriving DecidableEq, Repr

/-- The arguments the CLI passes to the MoltGrid client constructor. -/
structure Client where
  api_key : String
  base_url : Option String
deriving DecidableEq, Repr

/-- get_client from src/cli/moltgrid-cli.py lines 40 to 54: api_key starts as
os.getenv MOLTGRID_API_KEY and base_url as None; when that key is falsy both
are re-read from the config file; when the key is still falsy the command
prints an error and exits with status 1 (modelled as Except.error 1). -/
def get_client (env : Option String) (config : CliConfig) : Except Nat Client :=
  let api_key : Option String := env
  let base_url : Option String := none
  let st :=
    if pyTruthy api_key then (api_key, base_url)
    else (config.api_key, config.base_url)
  if pyTruthy st.1 then .ok ⟨st.1.getD "", st.2⟩ else .error 1

/-- The api_key extraction in cmd_register:
result.get "api_key" with fallback result.get "apiKey". -/
def respApiKey (resp : List (String × String)) : Option String :=
  match resp.lookup "api_key" with
  | some v => some v
  | none => resp.lookup "apiKey"

/-- Python dict assignment config[k] = v on the JSON object read from the
config file: replaces the value stored at k, or appends the field when it is
absent.  Values are Option String since json.dump writes None as null. -/
def setField : List (String × Option String) → String → Option String →
    List (String × Option String)
  | [], k, v => [(k, v)]
  | p :: ps, k, v => if p.1 = k then (k, v) :: ps else p :: setField ps k v

/-- cmd_register from src/cli/moltgrid-cli.py lines 91 to 107, restricted to
its effect on the config file: with --json it only prints the raw response;
otherwise it loads the config, assigns api_key from the response and writes
the config back. -/
def cmd_register (jsonFlag : Bool) (resp : List (String × String))
    (config : List (String × Option String)) : List (String × Option String) :=
  if jsonFlag then config
  else setField config "api_key" (respApiKey resp)

/-! ## Server data model

Modelled from the spec, section 3 DATA MODEL: main.py is not in the source
tree.  Timestamps and ids are natural numbers; ids double as a logical clock
(a fresh-id counter drawn from State.nextId), so created_at fields record
submission order as the spec's monotone UTC timestamps do. -/

/-- Job status, from the spec: status in pending, claimed, completed, failed,
dead. -/
inductive JobStatus
  | pending
  | claimed
  | completed
  | failed
  | dead
deriving DecidableEq, Repr

/-- Modelled from the spec: the Job row of section 3. -/
structure Job where
  job_id : Nat
  agent_id : Nat
  queue_name : String
  payload : String
  priority : Int
  status : JobStatus
  attempts : Nat
  max_attempts : Nat
  claimed_by : Option Nat
  claimed_at : Option Nat
  completed_at : Option Nat
  result : Option String
  error : Option String
  created_at : Nat
  visibility_deadline : Option Nat
deriving DecidableEq, Repr

/-- Modelled from the spec: the MemoryEntry row (private memory), primary key
(agent_id, ns, key). -/
structure MemoryEntry where
  agent_id : Nat
  ns : String
  key : String
  value : String
  created_at : Nat
  updated_at : Nat
  expires_at : Option Nat
deriving DecidableEq, Repr

/-- Modelled from the spec: the SharedMemoryEntry row, primary key (ns, key),
owner retained across updates. -/
structure SharedEntry where
  ns : String
  key : String
  value : String
  owner_agent_id : Nat
  created_at : Nat
  updated_at : Nat
  expires_at : Option Nat
  description : Option String
deriving DecidableEq, Repr

/-- Modelled from the spec: the Message row of the relay. -/
structure Message where
  message_id : Nat
  from_agent : Nat
  to_agent : Nat
  channel : Option String
  payload : String
  created_at : Nat
  read_at : Option Nat
deriving DecidableEq, Repr

/-- Modelled from the spec: the ScheduledTask row.  The cron expression is
abstracted to its period: cron_period p means the task matches exactly the
instants that are multiples of p (the spec only constrains next_run_at to be
the smallest future matching instant, strictly forward of now). -/
structure ScheduledTask where
  task_id : Nat
  agent_id : Nat
  cron_period : Nat
  payload : String
  queue_name : String
  priority : Int
  max_attempts : Nat
  enabled : Bool
  next_run_at : Nat
  last_run_at : Option Nat
deriving DecidableEq, Repr

/-- Modelled from the spec: the Webhook row. -/
structure Webhook where
  webhook_id : Nat
  agent_id : Nat
  url : String
  event_types : List String
  secret : Option String
  active : Bool
deriving DecidableEq, Repr

/-- Modelled from the spec: the whole transactional store.  agents maps
api_key_hash to agent_id (the hash lookup index of section 4.B); nextId is
the fresh-id counter and logical clock. -/
structure State where
  agents : List (String × Nat)
  memory : List MemoryEntry
  shared : List SharedEntry
  messages : List Message
  jobs : List Job
  tasks : List ScheduledTask
  webhooks : List Webhook
  nextId : Nat
deriving DecidableEq, Repr

/-- The empty store right after idempotent schema creation. -/
def initState : State := ⟨[], [], [], [], [], [], [], 0⟩

/-- The four user-visible error classes of section 6 (422 sits at the
transport layer and is modelled in the router below). -/
inductive ApiError
  | badRequest
  | unauthorized
  | notFound
  | rateLimited
deriving DecidableEq, Repr

/-! ## Private memory (spec section 4.C) -/

/-- An entry is logically absent when expires_at is at or before now. -/
def memExpired (e : MemoryEntry) (now : Nat) : Bool :=
  match e.expires_at with
  | some t => t ≤ now
  | none => false

/-- Row match on the private-memory primary key (agent_id, ns, key). -/
def memMatch (aid : Nat) (ns k : String) (e : MemoryEntry) : Bool :=
  e.agent_id == aid && e.ns == ns && e.key == k

/-- Upsert of a private-memory row: an existing row keeps created_at and
refreshes value, updated_at and expires_at; otherwise a fresh row is
appended. -/
def memUpsert (aid : Nat) (ns k v : String) (exp : Option Nat) (now : Nat) :
    List MemoryEntry → List MemoryEntry
  | [] => [⟨aid, ns, k, v, now, now, exp⟩]
  | e :: es =>
    if memMatch aid ns k e then
      { e with value := v, updated_at := now, expires_at := exp } :: es
    else e :: memUpsert aid ns k v exp now es

/-- Modelled from the spec: private-memory set(key, value, namespace?,
ttl_seconds?).  ttl_seconds under 60 is rejected with BadRequest; set is an
upsert. -/
def memSet (aid : Nat) (ns k v : String) (ttl : Option Nat) (now : Nat)
    (s : State) : Except ApiError Unit × State :=
  match ttl with
  | some t =>
    if t < 60 then (.error .badRequest, s)
    else (.ok (), { s with memory := memUpsert aid ns k v (some (now + t)) now s.memory })
  | none => (.ok (), { s with memory := memUpsert aid ns k v none now s.memory })

/-- Modelled from the spec: private-memory get(key, namespace?) filters out
expired rows and rows of other agents. -/
def memGet (aid : Nat) (ns k : String) (now : Nat) (s : State) :
    Except ApiError MemoryEntry :=
  match s.memory.find? (fun e => memMatch aid ns k e && !memExpired e now) with
  | some e => .ok e
  | none => .error .notFound

/-- Modelled from the spec: private-memory delete(key, namespace?) fails with
NotFound on an absent or expired row, else removes the row. -/
def memDelete (aid : Nat) (ns k : String) (now : Nat) (s : State) :
    Except ApiError Unit × State :=
  match s.memory.find? (fun e => memMatch aid ns k e && !memExpired e now) with
  | some _ => (.ok (), { s with memory := s.memory.filter (fun e => !memMatch aid ns k e) })
  | none => (.error .notFound, s)

/-! ## Shared memory (spec section 4.D) -/

/-- An entry is logically absent when expires_at is at or before now. -/
def sharedExpired (e : SharedEntry) (now : Nat) : Bool :=
  match e.expires_at with
  | some t => t ≤ now
  | none => false

/-- Row match on the shared-memory primary key (ns, key). -/
def sharedMatch (ns k : String) (e : SharedEntry) : Bool :=
  e.ns == ns && e.key == k

/-- Upsert of a shared-memory row: an existing (ns, key) keeps created_at and
owner_agent_id and refreshes value, updated_at, description and expires_at;
otherwise a fresh row owned by the caller is appended. -/
def sharedUpsert (caller : Nat) (ns k v : String) (desc : Option String)
    (exp : Option Nat) (now : Nat) : List SharedEntry → List SharedEntry
  | [] => [⟨ns, k, v, caller, now, now, exp, desc⟩]
  | e :: es =>
    if sharedMatch ns k e then
      { e with value := v, updated_at := now, expires_at := exp, description := desc } :: es
    else e :: sharedUpsert caller ns k v desc exp now es

/-- Modelled from the spec: shared-memory set keeps the original owner on
update and rejects ttl_seconds under 60. -/
def sharedSet (caller : Nat) (ns k v : String) (desc : Option String)
    (ttl : Option Nat) (now : Nat) (s : State) : Except ApiError Unit × State :=
  match ttl with
  | some t =>
    if t < 60 then (.error .badRequest, s)
    else (.ok (), { s with shared := sharedUpsert caller ns k v desc (some (now + t)) now s.shared })
  | none => (.ok (), { s with shared := sharedUpsert caller ns k v desc none now s.shared })

/-- The row a shared-memory read or delete addresses: the live (non-expired)
row at (ns, key). -/
def sharedFind (ns k : String) (now : Nat) (s : State) : Option SharedEntry :=
  s.shared.find? (fun e => sharedMatch ns k e && !sharedExpired e now)

/-- Modelled from the spec: shared-memory delete(namespace, key) fails with
NotFound unless the caller is the owner; the owner-mismatch case is reported
as NotFound as well, to avoid leaking existence. -/
def sharedDelete (caller : Nat) (ns k : String) (now : Nat) (s : State) :
    Except ApiError Unit × State :=
  match sharedFind ns k now s with
  | none => (.error .notFound, s)
  | some e =>
    if e.owner_agent_id == caller then
      (.ok (), { s with shared := s.shared.filter (fun x => !sharedMatch ns k x) })
    else (.error .notFound, s)

/-! ## Relay (spec section 4.F) -/

/-- Modelled from the spec: send(to_agent, payload, channel?) fails NotFound
when the target agent does not exist, else inserts a Message with read_at null. -/
def sendMessage (caller toA : Nat) (channel : Option String) (payload : String)
    (now : Nat) (s : State) : Except ApiError Nat × State :=
  if s.agents.any (fun p => p.2 == toA) then
    (.ok s.nextId,
      { s with messages := s.messages ++ [⟨s.nextId, caller, toA, channel, payload, now, none⟩],
               nextId := s.nextId + 1 })
  else (.error .notFound, s)

/-- Modelled from the spec: inbox(channel?, unread_only) returns the caller's
messages, filtered to the channel when given and to unread ones by default. -/
def inbox (caller : Nat) (channel : Option String) (unreadOnly : Bool)
    (s : State) : List Message :=
  s.messages.filter (fun m =>
    m.to_agent == caller &&
    (match channel with
     | some c => m.channel == some c
     | none => true) &&
    (!unreadOnly || m.read_at.isNone))

/-- The row update of mark_read: read_at becomes now when it was null and
keeps its first-set value otherwise. -/
def readStamp (now : Nat) (m : Message) : Message :=
  { m with read_at := some (m.read_at.getD now) }

/-- Modelled from the spec: mark_read(message_id) sets read_at to now, fails
NotFound when the message is not addressed to the caller, and is idempotent —
an already-set read_at keeps its first value. -/
def markRead (caller mid now : Nat) (s : State) : Except ApiError Unit × State :=
  match s.messages.find? (fun m => m.message_id == mid && m.to_agent == caller) with
  | none => (.error .notFound, s)
  | some _ =>
    (.ok (), { s with messages := s.messages.map (fun m =>
        if m.message_id == mid && m.to_agent == caller then readStamp now m
        else m) })

/-! ## Job queue (spec section 4.G) -/

/-- The visibility timeout V (spec suggests 300 seconds). -/
def visibilityTimeout : Nat := 300

/-- Modelled from the spec: submit(payload, queue_name, priority,
max_attempts) inserts a job with status pending and attempts 0. -/
def submit (aid : Nat) (queue payload : String) (priority : Int)
    (maxAttempts : Nat) (s : State) : Nat × State :=
  (s.nextId,
    { s with
        jobs := s.jobs ++
          [⟨s.nextId, aid, queue, payload, priority, .pending, 0, maxAttempts,
            none, none, none, none, none, s.nextId, none⟩],
        nextId := s.nextId + 1 })

/-- The claim selection order of the spec: ORDER BY priority DESC,
created_at ASC.  JobBefore a b holds when a comes strictly before b. -/
def JobBefore (a b : Job) : Prop :=
  b.priority < a.priority ∨ (a.priority = b.priority ∧ a.created_at < b.created_at)

instance (a b : Job) : Decidable (JobBefore a b) := by
  unfold JobBefore; infer_instance

/-- LIMIT 1 under the claim order: the first row of the candidate list in
that order (earlier rows win ties, as the scan is in insertion order). -/
def selectJob : List Job → Option Job
  | [] => none
  | j :: js =>
    match selectJob js with
    | none => some j
    | some b => if JobBefore b j then some b else some j

/-- Candidate filter for claim(queue_name?): pending jobs of the named
queue, or of any queue submitted by the caller when the name is absent. -/
def claimable (caller : Nat) (queue : Option String) (j : Job) : Bool :=
  j.status == .pending &&
    (match queue with
     | some q => j.queue_name == q
     | none => j.agent_id == caller)

/-- The row update a successful claim applies: status claimed, claimed_by,
claimed_at, visibility_deadline set, attempts incremented. -/
def claimStamp (caller now : Nat) (j : Job) : Job :=
  { j with status := .claimed, claimed_by := some caller, claimed_at := some now,
           visibility_deadline := some (now + visibilityTimeout),
           attempts := j.attempts + 1 }

/-- Modelled from the spec: claim(queue_name?) atomically pops the
highest-priority pending job in ORDER BY priority DESC, created_at ASC
LIMIT 1, or reports empty (modelled as none). -/
def claimJob (caller : Nat) (queue : Option String) (now : Nat) (s : State) :
    Option Job × State :=
  match selectJob (s.jobs.filter (claimable caller queue)) with
  | none => (none, s)
  | some j0 =>
    (some (claimStamp caller now j0),
      { s with jobs := s.jobs.map (fun j =>
          if j.job_id == j0.job_id then claimStamp caller now j else j) })

/-- Modelled from the spec: complete(job_id, result?) requires status claimed
and the caller to be the claimer. -/
def completeJob (caller jid : Nat) (res : String) (now : Nat) (s : State) :
    Except ApiError Unit × State :=
  match s.jobs.find? (fun j => j.job_id == jid) with
  | none => (.error .notFound, s)
  | some j =>
    if j.status == .claimed && j.claimed_by == some caller then
      (.ok (), { s with jobs := s.jobs.map (fun x =>
          if x.job_id == jid then
            { x with status := .completed, result := some res, completed_at := some now }
          else x) })
    else (.error .notFound, s)

/-- The retry-ladder rule shared by fail and the visibility-timeout sweep:
below max_attempts the job returns to pending with claim fields cleared,
otherwise it is dead; error records the last reason. -/
def failStamp (reason : String) (j : Job) : Job :=
  if j.attempts < j.max_attempts then
    { j with status := .pending, claimed_by := none, claimed_at := none,
             visibility_deadline := none, error := some reason }
  else { j with status := .dead, error := some reason }

/-- Modelled from the spec: fail(job_id, reason?) requires status claimed and
applies the retry-ladder rule. -/
def failJob (caller jid : Nat) (reason : String) (now : Nat) (s : State) :
    Except ApiError Unit × State :=
  match s.jobs.find? (fun j => j.job_id == jid) with
  | none => (.error .notFound, s)
  | some j =>
    if j.status == .claimed then
      (.ok (), { s with jobs := s.jobs.map (fun x =>
          if x.job_id == jid then failStamp reason x else x) })
    else (.error .notFound, s)

/-- Modelled from the spec: replay(job_id) requires status dead and resets
the job to pending with attempts 0 and claim and error fields cleared. -/
def replayJob (caller jid : Nat) (s : State) : Except ApiError Unit × State :=
  match s.jobs.find? (fun j => j.job_id == jid) with
  | none => (.error .notFound, s)
  | some j =>
    if j.status == .dead then
      (.ok (), { s with jobs := s.jobs.map (fun x =>
          if x.job_id == jid then
            { x with status := .pending, attempts := 0, claimed_by := none,
                     claimed_at := none, visibility_deadline := none, error := none }
          else x) })
    else (.error .notFound, s)

/-! ## Scheduler (spec section 4.H) -/

/-- The smallest instant matching a cron expression of period p that is
strictly forward of t: the next multiple of p after t. -/
def cronNext (p t : Nat) : Nat := (t / p + 1) * p

/-- Modelled from the spec: schedule creation validates the cron expression
(the degenerate period 0 is the invalid one here and fails BadRequest) and
computes next_run_at as the smallest future matching instant. -/
def scheduleCreate (aid : Nat) (period : Nat) (payload queue : String)
    (priority : Int) (maxAttempts : Nat) (now : Nat) (s : State) :
    Except ApiError Nat × State :=
  if period = 0 then (.error .badRequest, s)
  else
    (.ok s.nextId,
      { s with
          tasks := s.tasks ++
            [⟨s.nextId, aid, period, payload, queue, priority, maxAttempts,
              true, cronNext period now, none⟩],
          nextId := s.nextId + 1 })

/-- Modelled from the spec: toggle(task_id, enabled), scoped to the caller. -/
def scheduleToggle (caller tid : Nat) (en : Bool) (s : State) :
    Except ApiError Unit × State :=
  match s.tasks.find? (fun t => t.task_id == tid && t.agent_id == caller) with
  | none => (.error .notFound, s)
  | some _ =>
    (.ok (), { s with tasks := s.tasks.map (fun t =>
        if t.task_id == tid && t.agent_id == caller then { t with enabled := en } else t) })

/-- Modelled from the spec: delete(task_id), scoped to the caller. -/
def scheduleDelete (caller tid : Nat) (s : State) : Except ApiError Unit × State :=
  match s.tasks.find? (fun t => t.task_id == tid && t.agent_id == caller) with
  | none => (.error .notFound, s)
  | some _ =>
    (.ok (), { s with tasks := s.tasks.filter (fun t =>
        !(t.task_id == tid && t.agent_id == caller)) })

/-- A task is due at the tick time when it is enabled and next_run_at is at
or before now. -/
def isDue (now : Nat) (t : ScheduledTask) : Bool :=
  t.enabled && t.next_run_at ≤ now

/-- The job a firing task submits, carrying the task's agent_id, queue_name,
payload, priority and max_attempts, with a fresh id n. -/
def taskJob (n : Nat) (t : ScheduledTask) : Job :=
  ⟨n, t.agent_id, t.queue_name, t.payload, t.priority, .pending, 0,
    t.max_attempts, none, none, none, none, none, n, none⟩

/-- The pending jobs the due tasks submit during one tick, with consecutive
fresh ids starting at n. -/
def taskJobs (n : Nat) : List ScheduledTask → List Job
  | [] => []
  | t :: ts => taskJob n t :: taskJobs (n + 1) ts

/-- The visibility-timeout sweep rule on one job: an unfinished claimed job
whose deadline has passed goes back toward pending or dead by the fail
rule. -/
def sweepJob (now : Nat) (j : Job) : Job :=
  if j.status == .claimed &&
      (match j.visibility_deadline with
       | some d => decide (d ≤ now)
       | none => false) then
    failStamp "visibility timeout" j
  else j

/-- Modelled from the spec: the scheduler tick at time now runs the
visibility-timeout sweep, then for every task with enabled true and
next_run_at at or before now submits one job, sets last_run_at to now, and
recomputes next_run_at strictly forward of now. -/
def tick (now : Nat) (s : State) : State :=
  let due := s.tasks.filter (isDue now)
  { s with
      jobs := s.jobs.map (sweepJob now) ++ taskJobs s.nextId due,
      tasks := s.tasks.map (fun t =>
        if isDue now t then
          { t with last_run_at := some now, next_run_at := cronNext t.cron_period now }
        else t),
      nextId := s.nextId + due.length }

/-! ## Webhooks (spec section 4.I) -/

/-- The closed set of webhook event types. -/
def allowedEvents : List String := ["message.received", "job.completed", "job.failed"]

/-- Modelled from the spec: webhook registration validates every event
against the closed set, rejects with BadRequest otherwise, and stores the
webhook with active true. -/
def webhookRegister (aid : Nat) (url : String) (events : List String)
    (secret : Option String) (s : State) : Except ApiError Nat × State :=
  if events.all (fun e => allowedEvents.contains e) then
    (.ok s.nextId,
      { s with webhooks := s.webhooks ++ [⟨s.nextId, aid, url, events, secret, true⟩],
               nextId := s.nextId + 1 })
  else (.error .badRequest, s)

/-- Modelled from the spec: webhook delete, scoped to the caller. -/
def webhookDelete (caller wid : Nat) (s : State) : Except ApiError Unit × State :=
  match s.webhooks.find? (fun w => w.webhook_id == wid && w.agent_id == caller) with
  | none => (.error .notFound, s)
  | some _ =>
    (.ok (), { s with webhooks := s.webhooks.filter (fun w =>
        !(w.webhook_id == wid && w.agent_id == caller)) })

/-- One asynchronous outbound POST the dispatcher performs. -/
structure Delivery where
  webhook_id : Nat
  url : String
  event : String
  body : String
deriving DecidableEq, Repr

/-- The selection predicate of fire(agent_id, event_type, body): active
webhooks belonging to the agent whose event_types contains the event. -/
def hookMatches (aid : Nat) (event : String) (w : Webhook) : Bool :=
  w.agent_id == aid && w.active && w.event_types.contains event

/-- Modelled from the spec: fire(agent_id, event_type, body) posts once,
asynchronously, for each matching webhook and does nothing else. -/
def fireWebhooks (aid : Nat) (event body : String) (s : State) : List Delivery :=
  (s.webhooks.filter (hookMatches aid event)).map
    (fun w => ⟨w.webhook_id, w.url, event, body⟩)

/-! ## Identity and the authenticated router (spec sections 4.B, 4.K) -/

/-- Modelled from the spec: register stores only the hash of the generated
api key and returns the fresh agent_id. -/
def registerAgent (apiKeyHash : String) (s : State) : Nat × State :=
  (s.nextId, { s with agents := s.agents ++ [(apiKeyHash, s.nextId)],
                      nextId := s.nextId + 1 })

/-- Modelled from the spec and src/test_main.py: the API key arrives in the
X-API-Key header.  A request missing the required header is rejected by the
transport layer with a 422 validation error before any app code runs
(test_missing_api_key; spec section 6, error wire shape); a presented key
whose SHA-256 hash is not in the agents index is rejected 401 Unauthorized
(test_invalid_api_key).  The hash function is a parameter. -/
def authenticate (hash : String → String) (presented : Option String)
    (s : State) : Except Nat Nat :=
  match presented with
  | none => .error 422
  | some k =>
    match s.agents.lookup (hash k) with
    | some aid => .ok aid
    | none => .error 401

/-- A few representative authenticated operations for the router model. -/
inductive Request
  | memGetR (ns k : String) (now : Nat)
  | memSetR (ns k v : String) (ttl : Option Nat) (now : Nat)
  | claimR (queue : Option String) (now : Nat)
  | inboxR (channel : Option String) (unreadOnly : Bool)
deriving DecidableEq, Repr

/-- The wire response: HTTP status code only (200 on success). -/
def ApiError.code : ApiError → Nat
  | .badRequest => 400
  | .unauthorized => 401
  | .notFound => 404
  | .rateLimited => 429

/-- Dispatch of an authenticated request to its component. -/
def dispatch (aid : Nat) (req : Request) (s : State) : Nat × State :=
  match req with
  | .memGetR ns k now =>
    (match memGet aid ns k now s with
     | .ok _ => 200
     | .error e => e.code, s)
  | .memSetR ns k v ttl now =>
    match memSet aid ns k v ttl now s with
    | (.ok _, s') => (200, s')
    | (.error e, s') => (e.code, s')
  | .claimR queue now => (200, (claimJob aid queue now s).2)
  | .inboxR _ _ => (200, s)

/-- Modelled from the spec: the authenticated router resolves the caller
from the presented key and only then dispatches; an authentication failure
surfaces its code and touches nothing. -/
def handle (hash : String → String) (presented : Option String)
    (req : Request) (s : State) : Nat × State :=
  match authenticate hash presented s with
  | .error c => (c, s)
  | .ok aid => dispatch aid req s

/-! ## Reachable states

One step per state-mutating operation of the surface.  The two guards on
submit and scheduleCreate are the data-model invariants of spec section 3:
a freshly inserted pending job must satisfy attempts < max_attempts, so
max_attempts is at least 1, and a validated cron expression has a nonzero
period. -/

inductive Step : State → State → Prop
  | register (h : String) (s : State) : Step s (registerAgent h s).2
  | memSetS (a : Nat) (ns k v : String) (ttl : Option Nat) (now : Nat) (s : State) :
      Step s (memSet a ns k v ttl now s).2
  | memDeleteS (a : Nat) (ns k : String) (now : Nat) (s : State) :
      Step s (memDelete a ns k now s).2
  | sharedSetS (a : Nat) (ns k v : String) (d : Option String) (ttl : Option Nat)
      (now : Nat) (s : State) : Step s (sharedSet a ns k v d ttl now s).2
  | sharedDeleteS (a : Nat) (ns k : String) (now : Nat) (s : State) :
      Step s (sharedDelete a ns k now s).2
  | sendS (a b : Nat) (ch : Option String) (p : String) (now : Nat) (s : State) :
      Step s (sendMessage a b ch p now s).2
  | markReadS (a mid now : Nat) (s : State) : Step s (markRead a mid now s).2
  | submitS (a : Nat) (q p : String) (prio : Int) (m : Nat) (hm : 1 ≤ m) (s : State) :
      Step s (submit a q p prio m s).2
  | claimS (a : Nat) (q : Option String) (now : Nat) (s : State) :
      Step s (claimJob a q now s).2
  | completeS (a jid : Nat) (r : String) (now : Nat) (s : State) :
      Step s (completeJob a jid r now s).2
  | failS (a jid : Nat) (r : String) (now : Nat) (s : State) :
      Step s (failJob a jid r now s).2
  | replayS (a jid : Nat) (s : State) : Step s (replayJob a jid s).2
  | scheduleCreateS (a per : Nat) (p q : String) (prio : Int) (m now : Nat)
      (hm : 1 ≤ m) (s : State) :
      Step s (scheduleCreate a per p q prio m now s).2
  | scheduleToggleS (a tid : Nat) (en : Bool) (s : State) :
      Step s (scheduleToggle a tid en s).2
  | scheduleDeleteS (a tid : Nat) (s : State) : Step s (scheduleDelete a tid s).2
  | webhookRegisterS (a : Nat) (u : String) (ev : List String) (sec : Option String)
      (s : State) : Step s (webhookRegister a u ev sec s).2
  | webhookDeleteS (a wid : Nat) (s : State) : Step s (webhookDelete a wid s).2
  | tickS (now : Nat) (s : State) : Step s (tick now s)

/-- The states the system can be in: everything the operations generate from
the freshly initialized store. -/
inductive Reachable : State → Prop
  | init : Reachable initState
  | step {s s' : State} : Reachable s → Step s s' → Reachable s'

/-- The job-row invariants of spec section 3, per row: attempts bounded by
max_attempts, a positive attempt budget, pending rows strictly below the
budget, dead rows at or above it, and the logical-clock identity between
created_at and job_id of this model. -/
def JobInv (j : Job) : Prop :=
  j.attempts ≤ j.max_attempts ∧ 1 ≤ j.max_attempts ∧
  (j.status = .pending → j.attempts < j.max_attempts) ∧
  (j.status = .dead → j.max_attempts ≤ j.attempts) ∧
  j.created_at = j.job_id

/-- The store-wide invariant: every job row satisfies JobInv and carries an
id below the fresh-id counter, job ids are unique, and every scheduled task
has a positive attempt budget and a validated (nonzero) cron period. -/
def Inv (s : State) : Prop :=
  (∀ j ∈ s.jobs, JobInv j ∧ j.job_id < s.nextId) ∧
  (s.jobs.map Job.job_id).Nodup ∧
  (∀ t ∈ s.tasks, 1 ≤ t.max_attempts ∧ 1 ≤ t.cron_period)

/-! ## Concrete scenario states used by the claims -/

/-- Retry-ladder scenario, step 1: submit with max_attempts 2. -/
def scState1 : State := (submit 7 "default" "work" 5 2 initState).2

/-- Retry-ladder scenario, step 2: first claim. -/
def scState2 : State := (claimJob 7 none 100 scState1).2

/-- Retry-ladder scenario, step 3: first fail. -/
def scState3 : State := (failJob 7 0 "boom1" 101 scState2).2

/-- Retry-ladder scenario, step 4: second claim. -/
def scState4 : State := (claimJob 7 none 102 scState3).2

/-- Retry-ladder scenario, step 5: second fail; the job is now dead. -/
def scState5 : State := (failJob 7 0 "boom2" 103 scState4).2

/-- Priority scenario, step 1: submit the priority-1 job. -/
def prState1 : State := (submit 7 "default" "low" 1 3 initState).2

/-- Priority scenario, step 2: submit the priority-10 job. -/
def prState2 : State := (submit 7 "default" "high" 10 3 prState1).2

end MoltGrid

namespace MoltGrid

/-! ## Lemmas about the CLI embedding -/

theorem setField_lookup_self (config : List (String × Option String))
    (k : String) (v : Option String) : (setField config k v).lookup k = some v := by
  induction config with
  | nil => simp [setField, List.lookup]
  | cons p ps ih =>
    by_cases h : p.1 = k
    · simp [setField, h, List.lookup]
    · simp only [setField, if_neg h, List.lookup]
      have : (k == p.1) = false := by
        simp [beq_iff_eq]
        exact fun hk => h hk.symm
      simp [this, ih]

theorem setField_lookup_ne (config : List (String × Option String))
    (k k' : String) (v : Option String) (h : k' ≠ k) :
    (setField config k v).lookup k' = config.lookup k' := by
  have hkk : (k' == k) = false := by simp [beq_iff_eq, h]
  induction config with
  | nil => simp [setField, List.lookup, hkk]
  | cons p ps ih =>
    obtain ⟨pk, pv⟩ := p
    by_cases hp : pk = k
    · subst hp
      simp [setField, List.lookup, hkk]
    · simp only [setField, hp, if_false, ite_false, if_neg]
      cases hkp : (k' == pk) with
      | true => simp [List.lookup, hkp]
      | false => simp [List.lookup, hkp, ih]

end MoltGrid

namespace MoltGrid

/-! ## The claim selection order -/

theorem jobBefore_irrefl (j : Job) : ¬ JobBefore j j := by
  unfold JobBefore; omega

theorem jobBefore_asymm {a b : Job} (h1 : JobBefore a b) (h2 : JobBefore b a) :
    False := by
  unfold JobBefore at h1 h2; omega

theorem jobBefore_negtrans {x b j : Job} (h1 : ¬ JobBefore b j)
    (h2 : ¬ JobBefore x b) : ¬ JobBefore x j := by
  unfold JobBefore at h1 h2 ⊢; omega

theorem jobBefore_total {a b : Job} (h : a.created_at ≠ b.created_at) :
    JobBefore a b ∨ JobBefore b a := by
  unfold JobBefore; omega

theorem selectJob_cons_isSome (j : Job) (js : List Job) :
    (selectJob (j :: js)).isSome := by
  simp only [selectJob]
  cases selectJob js with
  | none => rfl
  | some b => by_cases h : JobBefore b j <;> simp [h]

theorem selectJob_mem : ∀ {l : List Job} {b : Job}, selectJob l = some b → b ∈ l := by
  intro l
  induction l with
  | nil => intro b h; simp [selectJob] at h
  | cons j js ih =>
    intro b h
    simp only [selectJob] at h
    cases hjs : selectJob js with
    | none => rw [hjs] at h; cases h; exact .head _
    | some b0 =>
      rw [hjs] at h
      have h2 : (if JobBefore b0 j then some b0 else some j) = some b := h
      by_cases hb : JobBefore b0 j
      · rw [if_pos hb] at h2; cases h2; exact .tail _ (ih hjs)
      · rw [if_neg hb] at h2; cases h2; exact .head _

theorem selectJob_not_before : ∀ {l : List Job} {b : Job}, selectJob l = some b →
    ∀ x ∈ l, ¬ JobBefore x b := by
  intro l
  induction l with
  | nil => intro b h; simp [selectJob] at h
  | cons j js ih =>
    intro b h x hx
    simp only [selectJob] at h
    cases hjs : selectJob js with
    | none =>
      rw [hjs] at h; cases h
      have hnil : js = [] := by
        cases js with
        | nil => rfl
        | cons a as =>
          have := selectJob_cons_isSome a as
          rw [hjs] at this; simp at this
      subst hnil
      rcases List.mem_singleton.mp hx with rfl
      exact jobBefore_irrefl x
    | some b0 =>
      rw [hjs] at h
      have h2 : (if JobBefore b0 j then some b0 else some j) = some b := h
      by_cases hb : JobBefore b0 j
      · rw [if_pos hb] at h2; cases h2
        rcases List.mem_cons.mp hx with rfl | hx'
        · exact fun hc => jobBefore_asymm hc hb
        · exact ih hjs x hx'
      · rw [if_neg hb] at h2; cases h2
        rcases List.mem_cons.mp hx with rfl | hx'
        · exact jobBefore_irrefl x
        · exact jobBefore_negtrans hb (ih hjs x hx')

theorem selectJob_nil_iff {l : List Job} : selectJob l = none ↔ l = [] := by
  cases l with
  | nil => simp [selectJob]
  | cons j js =>
    constructor
    · intro h
      have := selectJob_cons_isSome j js
      rw [h] at this; simp at this
    · intro h; cases h

end MoltGrid

namespace MoltGrid

/-! ## Stamp-level invariant preservation -/

theorem claimStamp_id (c now : Nat) (j : Job) : (claimStamp c now j).job_id = j.job_id := rfl

theorem failStamp_id (r : String) (j : Job) : (failStamp r j).job_id = j.job_id := by
  unfold failStamp; split <;> rfl

theorem sweepJob_id (now : Nat) (j : Job) : (sweepJob now j).job_id = j.job_id := by
  unfold sweepJob; split
  · exact failStamp_id _ _
  · rfl

theorem jobInv_claimStamp {j : Job} (c now : Nat) (h : JobInv j)
    (hp : j.status = .pending) : JobInv (claimStamp c now j) := by
  obtain ⟨h1, h2, h3, h4, h5⟩ := h
  have hlt := h3 hp
  refine ⟨by simp [claimStamp]; omega, by simpa [claimStamp] using h2, ?_, ?_, ?_⟩
  · intro hst; simp [claimStamp] at hst
  · intro hst; simp [claimStamp] at hst
  · simpa [claimStamp] using h5

theorem jobInv_failStamp {j : Job} (r : String) (h : JobInv j) :
    JobInv (failStamp r j) := by
  obtain ⟨h1, h2, h3, h4, h5⟩ := h
  unfold failStamp
  by_cases hc : j.attempts < j.max_attempts
  · rw [if_pos hc]
    refine ⟨h1, h2, fun _ => hc, ?_, h5⟩
    intro hst; simp at hst
  · rw [if_neg hc]
    refine ⟨h1, h2, ?_, fun _ => by show j.max_attempts ≤ j.attempts; omega, h5⟩
    intro hst; simp at hst

theorem jobInv_sweepJob {j : Job} (now : Nat) (h : JobInv j) :
    JobInv (sweepJob now j) := by
  unfold sweepJob; split
  · exact jobInv_failStamp _ h
  · exact h

theorem jobInv_taskJob (n : Nat) (t : ScheduledTask) (hm : 1 ≤ t.max_attempts) :
    JobInv (taskJob n t) := by
  refine ⟨by simp [taskJob], by simpa [taskJob] using hm, fun _ => by simpa [taskJob] using hm, ?_, rfl⟩
  intro hst; simp [taskJob] at hst

theorem taskJobs_bounds : ∀ (n : Nat) (ts : List ScheduledTask) (j : Job),
    j ∈ taskJobs n ts →
    (∃ t ∈ ts, j = taskJob j.job_id t) ∧ n ≤ j.job_id ∧ j.job_id < n + ts.length := by
  intro n ts
  induction ts generalizing n with
  | nil => intro j h; simp [taskJobs] at h
  | cons t ts ih =>
    intro j h
    simp only [taskJobs, List.mem_cons] at h
    rcases h with rfl | h
    · refine ⟨⟨t, List.mem_cons_self t ts, rfl⟩, Nat.le_refl _, ?_⟩
      show n < n + (ts.length + 1); omega
    · obtain ⟨⟨t', ht', hje⟩, hlo, hhi⟩ := ih (n + 1) j h
      refine ⟨⟨t', List.mem_cons_of_mem t ht', hje⟩, by omega, ?_⟩
      simp only [List.length_cons]; omega

theorem taskJobs_ids_nodup : ∀ (n : Nat) (ts : List ScheduledTask),
    ((taskJobs n ts).map Job.job_id).Nodup := by
  intro n ts
  induction ts generalizing n with
  | nil => simp [taskJobs]
  | cons t ts ih =>
    simp only [taskJobs, List.map_cons, List.nodup_cons]
    refine ⟨?_, ih (n + 1)⟩
    intro hmem
    simp only [List.mem_map] at hmem
    obtain ⟨j, hj, hid⟩ := hmem
    have hlo := (taskJobs_bounds (n + 1) ts j hj).2.1
    have : (taskJob n t).job_id = n := rfl
    omega

theorem update_map_ids (l : List Job) (p : Job → Bool) (f : Job → Job)
    (hf : ∀ j, (f j).job_id = j.job_id) :
    ((l.map (fun j => if p j then f j else j)).map Job.job_id) = l.map Job.job_id := by
  rw [List.map_map]
  apply List.map_congr_left
  intro j _
  by_cases h : p j <;> simp [h, hf]

/-! ## Frame facts: operations that do not touch jobs or tasks -/

theorem Inv.frame {s s' : State} (h : Inv s) (hj : s'.jobs = s.jobs)
    (ht : s'.tasks = s.tasks) (hn : s.nextId ≤ s'.nextId) : Inv s' := by
  obtain ⟨h1, h2, h3⟩ := h
  refine ⟨?_, ?_, ?_⟩
  · intro j hjm
    rw [hj] at hjm
    exact ⟨(h1 j hjm).1, lt_of_lt_of_le (h1 j hjm).2 hn⟩
  · rw [hj]; exact h2
  · rw [ht]; exact h3

theorem memSet_frame (a : Nat) (ns k v : String) (ttl : Option Nat) (now : Nat)
    (s : State) : (memSet a ns k v ttl now s).2.jobs = s.jobs ∧
    (memSet a ns k v ttl now s).2.tasks = s.tasks ∧
    s.nextId ≤ (memSet a ns k v ttl now s).2.nextId := by
  unfold memSet
  cases ttl with
  | none => exact ⟨rfl, rfl, Nat.le_refl _⟩
  | some t => by_cases h : t < 60 <;> simp [h]

theorem memDelete_frame (a : Nat) (ns k : String) (now : Nat) (s : State) :
    (memDelete a ns k now s).2.jobs = s.jobs ∧
    (memDelete a ns k now s).2.tasks = s.tasks ∧
    s.nextId ≤ (memDelete a ns k now s).2.nextId := by
  unfold memDelete
  split <;> exact ⟨rfl, rfl, Nat.le_refl _⟩

theorem sharedSet_frame (a : Nat) (ns k v : String) (d : Option String)
    (ttl : Option Nat) (now : Nat) (s : State) :
    (sharedSet a ns k v d ttl now s).2.jobs = s.jobs ∧
    (sharedSet a ns k v d ttl now s).2.tasks = s.tasks ∧
    s.nextId ≤ (sharedSet a ns k v d ttl now s).2.nextId := by
  unfold sharedSet
  cases ttl with
  | none => exact ⟨rfl, rfl, Nat.le_refl _⟩
  | some t => by_cases h : t < 60 <;> simp [h]

theorem sharedDelete_frame (a : Nat) (ns k : String) (now : Nat) (s : State) :
    (sharedDelete a ns k now s).2.jobs = s.jobs ∧
    (sharedDelete a ns k now s).2.tasks = s.tasks ∧
    s.nextId ≤ (sharedDelete a ns k now s).2.nextId := by
  unfold sharedDelete
  split
  · exact ⟨rfl, rfl, Nat.le_refl _⟩
  · split <;> exact ⟨rfl, rfl, Nat.le_refl _⟩

theorem sendMessage_frame (a b : Nat) (ch : Option String) (p : String)
    (now : Nat) (s : State) : (sendMessage a b ch p now s).2.jobs = s.jobs ∧
    (sendMessage a b ch p now s).2.tasks = s.tasks ∧
    s.nextId ≤ (sendMessage a b ch p now s).2.nextId := by
  unfold sendMessage
  split <;> simp

theorem markRead_frame (a mid now : Nat) (s : State) :
    (markRead a mid now s).2.jobs = s.jobs ∧
    (markRead a mid now s).2.tasks = s.tasks ∧
    s.nextId ≤ (markRead a mid now s).2.nextId := by
  unfold markRead
  split <;> exact ⟨rfl, rfl, Nat.le_refl _⟩

theorem webhookRegister_frame (a : Nat) (u : String) (ev : List String)
    (sec : Option String) (s : State) :
    (webhookRegister a u ev sec s).2.jobs = s.jobs ∧
    (webhookRegister a u ev sec s).2.tasks = s.tasks ∧
    s.nextId ≤ (webhookRegister a u ev sec s).2.nextId := by
  unfold webhookRegister
  split <;> simp

theorem webhookDelete_frame (a wid : Nat) (s : State) :
    (webhookDelete a wid s).2.jobs = s.jobs ∧
    (webhookDelete a wid s).2.tasks = s.tasks ∧
    s.nextId ≤ (webhookDelete a wid s).2.nextId := by
  unfold webhookDelete
  split <;> exact ⟨rfl, rfl, Nat.le_refl _⟩

end MoltGrid

namespace MoltGrid

/-! ## The store invariant holds in every reachable state -/

theorem claimable_pending {c : Nat} {q : Option String} {j : Job}
    (h : claimable c q j = true) : j.status = .pending := by
  unfold claimable at h
  simp only [Bool.and_eq_true, beq_iff_eq] at h
  exact h.1

theorem inv_preserved {s s' : State} (h : Inv s) (hs : Step s s') : Inv s' := by
  obtain ⟨hjobs, hnodup, htasks⟩ := h
  cases hs with
  | register hh s => exact Inv.frame ⟨hjobs, hnodup, htasks⟩ rfl rfl (Nat.le_succ _)
  | memSetS a ns k v ttl now s =>
    obtain ⟨f1, f2, f3⟩ := memSet_frame a ns k v ttl now s
    exact Inv.frame ⟨hjobs, hnodup, htasks⟩ f1 f2 f3
  | memDeleteS a ns k now s =>
    obtain ⟨f1, f2, f3⟩ := memDelete_frame a ns k now s
    exact Inv.frame ⟨hjobs, hnodup, htasks⟩ f1 f2 f3
  | sharedSetS a ns k v d ttl now s =>
    obtain ⟨f1, f2, f3⟩ := sharedSet_frame a ns k v d ttl now s
    exact Inv.frame ⟨hjobs, hnodup, htasks⟩ f1 f2 f3
  | sharedDeleteS a ns k now s =>
    obtain ⟨f1, f2, f3⟩ := sharedDelete_frame a ns k now s
    exact Inv.frame ⟨hjobs, hnodup, htasks⟩ f1 f2 f3
  | sendS a b ch p now s =>
    obtain ⟨f1, f2, f3⟩ := sendMessage_frame a b ch p now s
    exact Inv.frame ⟨hjobs, hnodup, htasks⟩ f1 f2 f3
  | markReadS a mid now s =>
    obtain ⟨f1, f2, f3⟩ := markRead_frame a mid now s
    exact Inv.frame ⟨hjobs, hnodup, htasks⟩ f1 f2 f3
  | webhookRegisterS a u ev sec s =>
    obtain ⟨f1, f2, f3⟩ := webhookRegister_frame a u ev sec s
    exact Inv.frame ⟨hjobs, hnodup, htasks⟩ f1 f2 f3
  | webhookDeleteS a wid s =>
    obtain ⟨f1, f2, f3⟩ := webhookDelete_frame a wid s
    exact Inv.frame ⟨hjobs, hnodup, htasks⟩ f1 f2 f3
  | submitS a qn p prio m hm s =>
    unfold submit
    refine ⟨?_, ?_, htasks⟩
    · intro j' hj'
      simp only [List.mem_append, List.mem_singleton] at hj'
      rcases hj' with hj' | rfl
      · exact ⟨(hjobs j' hj').1, Nat.lt_succ_of_lt (hjobs j' hj').2⟩
      · refine ⟨⟨Nat.zero_le _, hm, fun _ => hm, ?_, rfl⟩, Nat.lt_succ_self _⟩
        intro hst; simp at hst
    · rw [List.map_append]
      simp only [List.map_cons, List.map_nil]
      refine List.nodup_append.mpr ⟨hnodup, List.nodup_singleton _, ?_⟩
      intro x hx1 hx2
      simp only [List.mem_singleton] at hx2
      subst hx2
      obtain ⟨j, hjmem, hid⟩ := List.mem_map.mp hx1
      have := (hjobs j hjmem).2
      omega
  | claimS a q now s =>
    unfold claimJob
    cases hsel : selectJob (s.jobs.filter (claimable a q)) with
    | none => exact ⟨hjobs, hnodup, htasks⟩
    | some j0 =>
      have hj0 := List.mem_filter.mp (selectJob_mem hsel)
      have hj0p := claimable_pending hj0.2
      refine ⟨?_, ?_, htasks⟩
      · intro j' hj'
        obtain ⟨j, hjmem, rfl⟩ := List.mem_map.mp hj'
        by_cases hid : j.job_id = j0.job_id
        · have hjeq : j = j0 := List.inj_on_of_nodup_map hnodup hjmem hj0.1 hid
          have hb : (j.job_id == j0.job_id) = true := by simpa using hid
          rw [if_pos hb]
          exact ⟨jobInv_claimStamp a now (hjobs j hjmem).1 (by rw [hjeq]; exact hj0p),
                 (hjobs j hjmem).2⟩
        · have hb : ¬((j.job_id == j0.job_id) = true) := by simpa using hid
          rw [if_neg hb]
          exact hjobs j hjmem
      · rw [update_map_ids]
        · exact hnodup
        · exact claimStamp_id a now
  | completeS a jid r now s =>
    unfold completeJob
    split
    · exact ⟨hjobs, hnodup, htasks⟩
    · split
      · refine ⟨?_, ?_, htasks⟩
        · intro j' hj'
          obtain ⟨j, hjmem, rfl⟩ := List.mem_map.mp hj'
          obtain ⟨⟨g1, g2, g3, g4, g5⟩, gid⟩ := hjobs j hjmem
          by_cases hid : j.job_id = jid
          · have hb : (j.job_id == jid) = true := by simpa using hid
            rw [if_pos hb]
            refine ⟨⟨g1, g2, ?_, ?_, g5⟩, gid⟩
            · intro hst; simp at hst
            · intro hst; simp at hst
          · have hb : ¬((j.job_id == jid) = true) := by simpa using hid
            rw [if_neg hb]
            exact ⟨⟨g1, g2, g3, g4, g5⟩, gid⟩
        · rw [update_map_ids]
          · exact hnodup
          · intro j; rfl
      · exact ⟨hjobs, hnodup, htasks⟩
  | failS a jid r now s =>
    unfold failJob
    split
    · exact ⟨hjobs, hnodup, htasks⟩
    · split
      · refine ⟨?_, ?_, htasks⟩
        · intro j' hj'
          obtain ⟨j, hjmem, rfl⟩ := List.mem_map.mp hj'
          by_cases hid : j.job_id = jid
          · have hb : (j.job_id == jid) = true := by simpa using hid
            rw [if_pos hb]
            exact ⟨jobInv_failStamp r (hjobs j hjmem).1,
                   by rw [failStamp_id]; exact (hjobs j hjmem).2⟩
          · have hb : ¬((j.job_id == jid) = true) := by simpa using hid
            rw [if_neg hb]
            exact hjobs j hjmem
        · rw [update_map_ids]
          · exact hnodup
          · exact failStamp_id r
      · exact ⟨hjobs, hnodup, htasks⟩
  | replayS a jid s =>
    unfold replayJob
    split
    · exact ⟨hjobs, hnodup, htasks⟩
    · split
      · refine ⟨?_, ?_, htasks⟩
        · intro j' hj'
          obtain ⟨j, hjmem, rfl⟩ := List.mem_map.mp hj'
          obtain ⟨⟨g1, g2, g3, g4, g5⟩, gid⟩ := hjobs j hjmem
          by_cases hid : j.job_id = jid
          · have hb : (j.job_id == jid) = true := by simpa using hid
            rw [if_pos hb]
            refine ⟨⟨?_, g2, fun _ => ?_, ?_, g5⟩, gid⟩
            · show (0 : Nat) ≤ j.max_attempts; omega
            · show (0 : Nat) < j.max_attempts; omega
            · intro hst; simp at hst
          · have hb : ¬((j.job_id == jid) = true) := by simpa using hid
            rw [if_neg hb]
            exact ⟨⟨g1, g2, g3, g4, g5⟩, gid⟩
        · rw [update_map_ids]
          · exact hnodup
          · intro j; rfl
      · exact ⟨hjobs, hnodup, htasks⟩
  | scheduleCreateS a per p qn prio m now hm s =>
    unfold scheduleCreate
    by_cases hper : per = 0
    · rw [if_pos hper]; exact ⟨hjobs, hnodup, htasks⟩
    · rw [if_neg hper]
      refine ⟨?_, hnodup, ?_⟩
      · intro j hj
        exact ⟨(hjobs j hj).1, Nat.lt_succ_of_lt (hjobs j hj).2⟩
      · intro t ht
        simp only [List.mem_append, List.mem_singleton] at ht
        rcases ht with ht | rfl
        · exact htasks t ht
        · exact ⟨hm, by show 1 ≤ per; omega⟩
  | scheduleToggleS a tid en s =>
    unfold scheduleToggle
    split
    · exact ⟨hjobs, hnodup, htasks⟩
    · refine ⟨hjobs, hnodup, ?_⟩
      intro t' ht'
      obtain ⟨t, htm, rfl⟩ := List.mem_map.mp ht'
      by_cases hc : (t.task_id == tid && t.agent_id == a) = true
      · rw [if_pos hc]; exact htasks t htm
      · rw [if_neg (by simpa using hc)]; exact htasks t htm
  | scheduleDeleteS a tid s =>
    unfold scheduleDelete
    split
    · exact ⟨hjobs, hnodup, htasks⟩
    · exact ⟨hjobs, hnodup, fun t ht => htasks t (List.mem_of_mem_filter ht)⟩
  | tickS now s =>
    unfold tick
    have hids : ((s.jobs.map (sweepJob now)).map Job.job_id) = s.jobs.map Job.job_id := by
      rw [List.map_map]
      apply List.map_congr_left
      intro j _
      simp [Function.comp, sweepJob_id]
    refine ⟨?_, ?_, ?_⟩
    · intro j' hj'
      simp only [List.mem_append] at hj'
      rcases hj' with hj' | hj'
      · obtain ⟨j, hjmem, rfl⟩ := List.mem_map.mp hj'
        refine ⟨jobInv_sweepJob now (hjobs j hjmem).1, ?_⟩
        rw [sweepJob_id]
        have := (hjobs j hjmem).2
        show j.job_id < s.nextId + (s.tasks.filter (isDue now)).length
        omega
      · obtain ⟨⟨t, htm, hje⟩, hlo, hhi⟩ := taskJobs_bounds _ _ _ hj'
        have htInv := htasks t (List.mem_of_mem_filter htm)
        refine ⟨?_, ?_⟩
        · rw [hje]; exact jobInv_taskJob _ _ htInv.1
        · exact hhi
    · rw [List.map_append]
      refine List.nodup_append.mpr ⟨?_, taskJobs_ids_nodup _ _, ?_⟩
      · rw [hids]; exact hnodup
      · intro x hx1 hx2
        rw [hids] at hx1
        obtain ⟨j, hjmem, hid⟩ := List.mem_map.mp hx1
        obtain ⟨jj, hjj, hid2⟩ := List.mem_map.mp hx2
        have h1 := (hjobs j hjmem).2
        have h2 := (taskJobs_bounds _ _ _ hjj).2.1
        omega
    · intro t' ht'
      obtain ⟨t, htm, rfl⟩ := List.mem_map.mp ht'
      by_cases hc : isDue now t = true
      · rw [if_pos hc]; exact htasks t htm
      · rw [if_neg (by simpa using hc)]; exact htasks t htm

theorem reachable_inv {s : State} (h : Reachable s) : Inv s := by
  induction h with
  | init =>
    refine ⟨?_, ?_, ?_⟩ <;> simp [initState]
  | step _ hs ih => exact inv_preserved ih hs

end MoltGrid

namespace MoltGrid

/-! ## Further helper lemmas -/

theorem find_by_id {jobs : List Job} (h : (jobs.map Job.job_id).Nodup) {j : Job}
    (hj : j ∈ jobs) : jobs.find? (fun x => x.job_id == j.job_id) = some j := by
  induction jobs with
  | nil => simp at hj
  | cons a l ih =>
    simp only [List.map_cons, List.nodup_cons] at h
    rcases List.mem_cons.mp hj with rfl | hmem
    · exact List.find?_cons_of_pos _ (by simp)
    · have hne : a.job_id ≠ j.job_id := fun he => h.1 (he ▸ List.mem_map_of_mem _ hmem)
      rw [List.find?_cons_of_neg _ (by simpa using hne)]
      exact ih h.2 hmem

theorem sweep_ids (now : Nat) (l : List Job) :
    (l.map (sweepJob now)).map Job.job_id = l.map Job.job_id := by
  rw [List.map_map]
  apply List.map_congr_left
  intro j _
  simp [Function.comp, sweepJob_id]

theorem cronNext_gt (p T : Nat) (hp : 1 ≤ p) : T < cronNext p T := by
  have h1 : T % p < p := Nat.mod_lt _ hp
  have h2 : p * (T / p) + T % p = T := Nat.div_add_mod T p
  unfold cronNext
  have h3 : (T / p + 1) * p = p * (T / p) + p := by ring
  rw [h3]
  omega

theorem taskJobs_forall₂ : ∀ (n : Nat) (ts : List ScheduledTask),
    List.Forall₂ (fun (t : ScheduledTask) (j : Job) =>
      j.status = .pending ∧ j.attempts = 0 ∧ j.agent_id = t.agent_id ∧
      j.queue_name = t.queue_name ∧ j.payload = t.payload ∧
      j.priority = t.priority ∧ j.max_attempts = t.max_attempts)
      ts (taskJobs n ts) := by
  intro n ts
  induction ts generalizing n with
  | nil => exact .nil
  | cons t ts ih => exact .cons ⟨rfl, rfl, rfl, rfl, rfl, rfl, rfl⟩ (ih (n + 1))

theorem countP_id_match : ∀ (l : List Webhook) (w : Webhook) (p : Webhook → Bool),
    (l.map Webhook.webhook_id).Nodup → w ∈ l →
    l.countP (fun x => (x.webhook_id == w.webhook_id) && p x) =
      if p w then 1 else 0 := by
  intro l
  induction l with
  | nil => intro w p _ hw; simp at hw
  | cons a l ih =>
    intro w p h hw
    simp only [List.map_cons, List.nodup_cons] at h
    rcases List.mem_cons.mp hw with rfl | hmem
    · rw [List.countP_cons]
      have hz : l.countP (fun x => (x.webhook_id == w.webhook_id) && p x) = 0 := by
        rw [List.countP_eq_zero]
        intro x hx
        have : x.webhook_id ≠ w.webhook_id :=
          fun he => h.1 (he ▸ List.mem_map_of_mem _ hx)
        simp [this]
      rw [hz]
      cases hp : p w <;> simp [hp]
    · rw [List.countP_cons]
      have hne : a.webhook_id ≠ w.webhook_id :=
        fun he => h.1 (he ▸ List.mem_map_of_mem _ hmem)
      have hfa : ((a.webhook_id == w.webhook_id) && p a) = false := by simp [hne]
      simp only [hfa, if_false, Nat.add_zero, ite_false]
      exact ih w p h.2 hmem

theorem find?_filter_of_excluded {α : Type} (l : List α) (r p : α → Bool)
    (h : ∀ e ∈ l, r e = false → p e = false) :
    (l.filter r).find? p = l.find? p := by
  induction l with
  | nil => rfl
  | cons e es ih =>
    by_cases hr : r e = true
    · rw [List.filter_cons_of_pos hr]
      by_cases hp : p e = true
      · rw [List.find?_cons_of_pos _ hp, List.find?_cons_of_pos _ hp]
      · rw [List.find?_cons_of_neg _ (by simpa using hp),
            List.find?_cons_of_neg _ (by simpa using hp)]
        exact ih (fun x hx => h x (List.mem_cons_of_mem e hx))
    · have hp : p e = false := h e (List.mem_cons_self e es) (by simpa using hr)
      rw [List.filter_cons_of_neg (by simpa using hr),
          List.find?_cons_of_neg _ (by simp [hp])]
      exact ih (fun x hx => h x (List.mem_cons_of_mem e hx))

end MoltGrid

namespace MoltGrid

/-! ## Private-memory isolation lemmas -/

theorem memMatch_agent {aid : Nat} {ns k : String} {e : MemoryEntry}
    (h : memMatch aid ns k e = true) : e.agent_id = aid := by
  unfold memMatch at h
  simp only [Bool.and_eq_true, beq_iff_eq] at h
  exact h.1.1

theorem memUpsert_filter_other {A B : Nat} (hAB : A ≠ B) (ns k v : String)
    (exp : Option Nat) (now : Nat) : ∀ es : List MemoryEntry,
    (memUpsert A ns k v exp now es).filter (fun e => e.agent_id == B) =
      es.filter (fun e => e.agent_id == B) := by
  intro es
  induction es with
  | nil =>
    have hF : (A == B) = false := by simpa using hAB
    simp [memUpsert, List.filter, hF]
  | cons e es ih =>
    by_cases hm : memMatch A ns k e = true
    · have hA : e.agent_id = A := memMatch_agent hm
      rw [memUpsert, if_pos hm]
      rw [List.filter_cons_of_neg (by simp [hA, hAB]),
          List.filter_cons_of_neg (by simp [hA, hAB])]
    · rw [memUpsert, if_neg (by simpa using hm)]
      by_cases hB : e.agent_id = B
      · rw [List.filter_cons_of_pos (by simp [hB]),
            List.filter_cons_of_pos (by simp [hB]), ih]
      · rw [List.filter_cons_of_neg (by simp [hB]),
            List.filter_cons_of_neg (by simp [hB]), ih]

theorem memUpsert_find_other {A B : Nat} (hAB : A ≠ B) (ns k v : String)
    (exp : Option Nat) (now : Nat) (ns' k' : String) (now' : Nat) :
    ∀ es : List MemoryEntry,
    (memUpsert A ns k v exp now es).find?
        (fun e => memMatch B ns' k' e && !memExpired e now') =
      es.find? (fun e => memMatch B ns' k' e && !memExpired e now') := by
  intro es
  induction es with
  | nil =>
    have hF : memMatch B ns' k' ⟨A, ns, k, v, now, now, exp⟩ = false := by
      simp [memMatch, hAB]
    rw [memUpsert]
    simp only [List.find?_cons, hF, Bool.false_and, List.find?_nil]
  | cons e es ih =>
    by_cases hm : memMatch A ns k e = true
    · have hA : e.agent_id = A := memMatch_agent hm
      have hF1 : memMatch B ns' k'
          { e with value := v, updated_at := now, expires_at := exp } = false := by
        simp [memMatch, hA, hAB]
      have hF2 : memMatch B ns' k' e = false := by simp [memMatch, hA, hAB]
      rw [memUpsert, if_pos hm]
      simp only [List.find?_cons, hF1, hF2, Bool.false_and]
    · rw [memUpsert, if_neg (by simpa using hm)]
      simp only [List.find?_cons]
      cases hp : (memMatch B ns' k' e && !memExpired e now') with
      | true => rfl
      | false => exact ih

theorem memUpsert_preserves_other {A B : Nat} (hAB : A ≠ B) (ns k v : String)
    (exp : Option Nat) (now : Nat) : ∀ (es : List MemoryEntry) (e : MemoryEntry),
    e ∈ es → e.agent_id = A → e ∈ memUpsert B ns k v exp now es := by
  intro es
  induction es with
  | nil => intro e he; simp at he
  | cons x xs ih =>
    intro e he hA
    by_cases hm : memMatch B ns k x = true
    · rw [memUpsert, if_pos hm]
      rcases List.mem_cons.mp he with rfl | hmem
      · exact absurd (memMatch_agent hm) (by rw [hA]; exact hAB)
      · exact List.mem_cons_of_mem _ hmem
    · rw [memUpsert, if_neg (by simpa using hm)]
      rcases List.mem_cons.mp he with rfl | hmem
      · exact List.mem_cons_self _ _
      · exact List.mem_cons_of_mem _ (ih e hmem hA)

end MoltGrid

namespace MoltGrid

/-! ## Claim theorems -/

/-- C9 counterexample: the claim says that whenever MOLTGRID_API_KEY is set
the config file is never read and base_url remains unset; but with the
variable set to the empty string (falsy in Python), get_client falls back to
the config file and the client carries the config's base_url. -/
theorem C9_counterexample :
    ¬ (∀ (envVal : String) (c : CliConfig) (r : Client),
        get_client (some envVal) c = .ok r → r.base_url = none) := by
  intro h
  have := h "" ⟨some "cfgkey", some "hc"⟩ ⟨"cfgkey", some "hc"⟩ rfl
  simp at this

/-- C9 amended: whenever MOLTGRID_API_KEY is set to a non-empty string,
get_client uses it as the API key and never reads the config file (the
result does not depend on the config), so base_url remains unset; when the
variable is unset or empty, api_key and base_url are taken from the config
file; when neither source yields a non-empty key, the command prints an
error and exits with status 1. -/
theorem C9_env_precedence :
    (∀ (k : String), k ≠ "" → ∀ (c c' : CliConfig),
        get_client (some k) c = .ok ⟨k, none⟩ ∧
        get_client (some k) c = get_client (some k) c') ∧
    (∀ (env : Option String) (c : CliConfig), pyTruthy env = false →
        pyTruthy c.api_key = true →
        get_client env c = .ok ⟨c.api_key.getD "", c.base_url⟩) ∧
    (∀ (env : Option String) (c : CliConfig), pyTruthy env = false →
        pyTruthy c.api_key = false → get_client env c = .error 1) := by
  refine ⟨?_, ?_, ?_⟩
  · intro k hk c c'
    have he : k.isEmpty = false := by
      cases h : k.isEmpty
      · rfl
      · exact absurd ((String.isEmpty_iff k).mp h) hk
    have ht : pyTruthy (some k) = true := by
      simp [pyTruthy, he]
    constructor <;> simp [get_client, ht]
  · intro env c h1 h2
    simp [get_client, h1, h2]
  · intro env c h1 h2
    simp [get_client, h1, h2]

/-- C9 witness at concrete inputs: a non-empty environment key wins over a
fully populated config, and two empty sources exit with status 1. -/
theorem C9_env_precedence_witness :
    get_client (some "af_k") ⟨some "other", some "hx"⟩ = .ok ⟨"af_k", none⟩ ∧
    get_client none ⟨none, none⟩ = .error 1 :=
  ⟨(C9_env_precedence.1 "af_k" (by decide) ⟨some "other", some "hx"⟩ ⟨none, none⟩).1,
   C9_env_precedence.2.2 none ⟨none, none⟩ (by decide) (by decide)⟩

/-- C10: cmd_register leaves the config file untouched when --json is
passed; otherwise it persists the response's api_key into the config,
overwriting only the api_key field and preserving the lookup result of every
other field. -/
theorem C10_register_config_frame (resp : List (String × String))
    (config : List (String × Option String)) :
    cmd_register true resp config = config ∧
    (cmd_register false resp config).lookup "api_key" = some (respApiKey resp) ∧
    (∀ k, k ≠ "api_key" →
        (cmd_register false resp config).lookup k = config.lookup k) := by
  refine ⟨rfl, ?_, ?_⟩
  · exact setField_lookup_self config "api_key" (respApiKey resp)
  · intro k hk
    exact setField_lookup_ne config "api_key" k (respApiKey resp) hk

/-- C10 witness at a concrete response and config: the base_url field
survives the save and api_key is written. -/
theorem C10_register_config_frame_witness :
    cmd_register true [("api_key", "af_1")] [("base_url", some "hx")] =
      [("base_url", some "hx")] ∧
    (cmd_register false [("api_key", "af_1")] [("base_url", some "hx")]).lookup
      "base_url" = some (some "hx") ∧
    (cmd_register false [("api_key", "af_1")] [("base_url", some "hx")]).lookup
      "api_key" = some (some "af_1") := by
  obtain ⟨h1, h2, h3⟩ :=
    C10_register_config_frame [("api_key", "af_1")] [("base_url", some "hx")]
  refine ⟨h1, ?_, ?_⟩
  · rw [h3 "base_url" (by decide)]; rfl
  · rw [h2]; rfl

/-- C4 counterexample: at a concrete store with one registered agent, a
request with a missing API key is rejected with code 422 (the transport
validation error that test_missing_api_key asserts), not 401 as the claim
states. -/
theorem C4_counterexample :
    (handle id none (.memGetR "default" "k" 0)
        ⟨[("h1", 1)], [], [], [], [], [], [], 2⟩).1 = 422 ∧
    ¬ (handle id none (.memGetR "default" "k" 0)
        ⟨[("h1", 1)], [], [], [], [], [], [], 2⟩).1 = 401 :=
  ⟨rfl, by decide⟩

/-- C4 amended: an operation invoked with a missing API key fails with the
422 validation error of the transport layer, and one whose presented key
hashes to no registered agent fails with 401 Unauthorized; in both cases the
request is not dispatched to any component and the store is untouched. -/
theorem C4_auth_gate (hash : String → String) (req : Request) (s : State) :
    handle hash none req s = (422, s) ∧
    (∀ k, s.agents.lookup (hash k) = none →
        handle hash (some k) req s = (401, s)) := by
  constructor
  · rfl
  · intro k hk
    simp [handle, authenticate, hk]

/-- C4 witness at a concrete store: both rejection paths, evaluated. -/
theorem C4_auth_gate_witness :
    handle id none (.memGetR "default" "k" 0)
        ⟨[("h1", 1)], [], [], [], [], [], [], 2⟩ =
      (422, ⟨[("h1", 1)], [], [], [], [], [], [], 2⟩) ∧
    handle id (some "bad") (.memGetR "default" "k" 0)
        ⟨[("h1", 1)], [], [], [], [], [], [], 2⟩ =
      (401, ⟨[("h1", 1)], [], [], [], [], [], [], 2⟩) := by
  obtain ⟨h1, h2⟩ :=
    C4_auth_gate id (.memGetR "default" "k" 0) ⟨[("h1", 1)], [], [], [], [], [], [], 2⟩
  exact ⟨h1, h2 "bad" rfl⟩

/-- C5: shared-memory delete by a caller other than the owner returns
NotFound and leaves the store — hence the entry's value, owner_agent_id and
expires_at — unchanged, and the outcome is the very pair that deleting an
absent key produces, so the two cases are indistinguishable to the caller. -/
theorem C5_shared_delete_owner_gate :
    (∀ (c : Nat) (ns k : String) (now : Nat) (s : State) (e : SharedEntry),
        sharedFind ns k now s = some e → e.owner_agent_id ≠ c →
        sharedDelete c ns k now s = (.error .notFound, s)) ∧
    (∀ (c : Nat) (ns k : String) (now : Nat) (s : State),
        sharedFind ns k now s = none →
        sharedDelete c ns k now s = (.error .notFound, s)) := by
  constructor
  · intro c ns k now s e hf ho
    simp only [sharedDelete, hf]
    rw [if_neg (by simpa using ho)]
  · intro c ns k now s hf
    simp only [sharedDelete, hf]

/-- C5 witness at a concrete store: a non-owner delete of a live entry, and
a delete of an absent key, both yield NotFound with the store unchanged. -/
theorem C5_shared_delete_owner_gate_witness :
    sharedDelete 2 "ns" "k" 5
        ⟨[], [], [⟨"ns", "k", "v", 1, 0, 0, none, none⟩], [], [], [], [], 3⟩ =
      (.error .notFound,
        ⟨[], [], [⟨"ns", "k", "v", 1, 0, 0, none, none⟩], [], [], [], [], 3⟩) ∧
    sharedDelete 2 "ns" "nope" 5 initState = (.error .notFound, initState) := by
  obtain ⟨h1, h2⟩ := C5_shared_delete_owner_gate
  exact ⟨h1 2 "ns" "k" 5 _ ⟨"ns", "k", "v", 1, 0, 0, none, none⟩ rfl (by decide),
         h2 2 "ns" "nope" 5 initState rfl⟩

end MoltGrid

namespace MoltGrid

/-- C7: fire dispatches exactly one POST per stored webhook that belongs to
the agent, is active and subscribes to the event (counted by webhook id),
dispatches nothing for any other webhook (every delivery originates from a
matching webhook), and in particular an agent whose only webhook subscribes
to job.completed gets no delivery at all when message.received fires. -/
theorem C7_webhook_fanout :
    (∀ (aid : Nat) (ev body : String) (s : State),
        (s.webhooks.map Webhook.webhook_id).Nodup →
        ∀ w ∈ s.webhooks,
          (fireWebhooks aid ev body s).countP
              (fun d => d.webhook_id == w.webhook_id) =
            if hookMatches aid ev w then 1 else 0) ∧
    (∀ (aid : Nat) (ev body : String) (s : State) (d : Delivery),
        d ∈ fireWebhooks aid ev body s →
        ∃ w ∈ s.webhooks, hookMatches aid ev w = true ∧
          d = ⟨w.webhook_id, w.url, ev, body⟩) ∧
    (∀ (aid wid : Nat) (url body : String) (sec : Option String) (s : State),
        s.webhooks = [⟨wid, aid, url, ["job.completed"], sec, true⟩] →
        fireWebhooks aid "message.received" body s = []) := by
  refine ⟨?_, ?_, ?_⟩
  · intro aid ev body s hnd w hw
    unfold fireWebhooks
    rw [List.countP_map, List.countP_filter]
    show s.webhooks.countP
        (fun x => (x.webhook_id == w.webhook_id) && hookMatches aid ev x) = _
    exact countP_id_match s.webhooks w (hookMatches aid ev) hnd hw
  · intro aid ev body s d hd
    unfold fireWebhooks at hd
    obtain ⟨w, hwf, rfl⟩ := List.mem_map.mp hd
    obtain ⟨hwm, hm⟩ := List.mem_filter.mp hwf
    exact ⟨w, hwm, hm, rfl⟩
  · intro aid wid url body sec s hs
    unfold fireWebhooks
    rw [hs]
    have hF : hookMatches aid "message.received"
        ⟨wid, aid, url, ["job.completed"], sec, true⟩ = false := by
      simp [hookMatches]
    rw [List.filter_cons_of_neg (by simp [hF])]
    rfl

/-- C7 witness at a concrete store: one matching webhook yields exactly one
delivery, and the job.completed-only webhook yields none on
message.received. -/
theorem C7_webhook_fanout_witness :
    (fireWebhooks 1 "message.received" "b"
        ⟨[], [], [], [], [], [], [⟨9, 1, "u", ["message.received"], none, true⟩], 10⟩).countP
        (fun d => d.webhook_id == 9) = 1 ∧
    fireWebhooks 1 "message.received" "b"
        ⟨[], [], [], [], [], [], [⟨9, 1, "u", ["job.completed"], none, true⟩], 10⟩ = [] := by
  obtain ⟨h1, _, h3⟩ := C7_webhook_fanout
  constructor
  · have := h1 1 "message.received" "b"
        ⟨[], [], [], [], [], [], [⟨9, 1, "u", ["message.received"], none, true⟩], 10⟩
        (by decide) ⟨9, 1, "u", ["message.received"], none, true⟩ (by decide)
    rw [this]
    decide
  · exact h3 1 9 "u" "b" none
      ⟨[], [], [], [], [], [], [⟨9, 1, "u", ["job.completed"], none, true⟩], 10⟩ rfl

end MoltGrid

namespace MoltGrid

theorem readStamp_message_id (now : Nat) (m : Message) :
    (readStamp now m).message_id = m.message_id := rfl

theorem readStamp_to_agent (now : Nat) (m : Message) :
    (readStamp now m).to_agent = m.to_agent := rfl

theorem readStamp_of_read (now : Nat) (m : Message) {t : Nat}
    (h : m.read_at = some t) : readStamp now m = m := by
  cases m with
  | mk mi fa ta ch p ca ra =>
    simp only [readStamp]
    simp only at h
    rw [h]
    rfl

theorem markRead_messages {caller mid now : Nat} {s : State} {m0 : Message}
    (hf : s.messages.find?
        (fun x => x.message_id == mid && x.to_agent == caller) = some m0) :
    (markRead caller mid now s).2.messages = s.messages.map (fun x =>
        if x.message_id == mid && x.to_agent == caller then readStamp now x
        else x) := by
  simp only [markRead, hf]

theorem markRead_again (caller mid now2 : Nat) (s1 : State) (m1 : Message)
    (hm1 : m1 ∈ s1.messages)
    (hp1 : (m1.message_id == mid && m1.to_agent == caller) = true)
    (hall : ∀ x ∈ s1.messages,
        (x.message_id == mid && x.to_agent == caller) = true →
        ∃ t, x.read_at = some t) :
    markRead caller mid now2 s1 = (.ok (), s1) := by
  cases hf1 : s1.messages.find?
      (fun x => x.message_id == mid && x.to_agent == caller) with
  | none => exact absurd hp1 (by simpa using List.find?_eq_none.mp hf1 m1 hm1)
  | some mf =>
    simp only [markRead, hf1]
    have hgx : ∀ x ∈ s1.messages,
        (if x.message_id == mid && x.to_agent == caller then readStamp now2 x
         else x) = id x := by
      intro x hx
      by_cases hp0 : (x.message_id == mid && x.to_agent == caller) = true
      · rw [if_pos hp0]
        obtain ⟨t, ht⟩ := hall x hx hp0
        exact readStamp_of_read now2 x ht
      · rw [if_neg (by simpa using hp0)]
        rfl
    rw [List.map_congr_left hgx, List.map_id]

/-- C8: a first mark_read on a message addressed to the caller succeeds,
sets read_at to the current time, and removes the message from the default
unread-only inbox; a second mark_read of the same message also succeeds and
changes nothing, so read_at keeps its first-set value; mark_read of a
message_id not addressed to the caller fails with NotFound and changes
nothing. -/
theorem C8_mark_read_idempotent :
    (∀ (caller mid now now2 : Nat) (s : State) (m : Message), m ∈ s.messages →
        m.message_id = mid → m.to_agent = caller →
        (markRead caller mid now s).1 = .ok () ∧
        (m.read_at = none →
          { m with read_at := some now } ∈ (markRead caller mid now s).2.messages) ∧
        (∀ m' ∈ inbox caller none true (markRead caller mid now s).2,
          m'.message_id ≠ mid) ∧
        markRead caller mid now2 (markRead caller mid now s).2 =
          (.ok (), (markRead caller mid now s).2)) ∧
    (∀ (caller mid now : Nat) (s : State),
        (∀ m ∈ s.messages, ¬(m.message_id = mid ∧ m.to_agent = caller)) →
        markRead caller mid now s = (.error .notFound, s)) := by
  constructor
  · intro caller mid now now2 s m hm hmid hto
    have hpm : (m.message_id == mid && m.to_agent == caller) = true := by
      simp [hmid, hto]
    cases hf : s.messages.find?
        (fun x => x.message_id == mid && x.to_agent == caller) with
    | none => exact absurd hpm (by simpa using List.find?_eq_none.mp hf m hm)
    | some m0 =>
      have hmsg := @markRead_messages caller mid now s m0 hf
      have himg : readStamp now m ∈ (markRead caller mid now s).2.messages := by
        rw [hmsg]
        have heq : (if m.message_id == mid && m.to_agent == caller then
            readStamp now m else m) = readStamp now m := if_pos hpm
        exact heq ▸ List.mem_map_of_mem _ hm
      refine ⟨by simp only [markRead, hf], ?_, ?_, ?_⟩
      · intro hra
        have : readStamp now m = { m with read_at := some now } := by
          simp [readStamp, hra]
        exact this ▸ himg
      · intro m' hm'
        obtain ⟨hmm, hcond⟩ := List.mem_filter.mp hm'
        rw [hmsg] at hmm
        obtain ⟨m0', hm0', hup⟩ := List.mem_map.mp hmm
        intro hideq
        by_cases hp : (m0'.message_id == mid && m0'.to_agent == caller) = true
        · rw [if_pos hp] at hup
          rw [← hup] at hcond
          simp [readStamp] at hcond
        · rw [if_neg (by simpa using hp)] at hup
          subst hup
          simp only [Bool.and_eq_true, beq_iff_eq] at hcond
          exact hp (by simp [hideq, hcond.1.1])
      · refine markRead_again caller mid now2 _ (readStamp now m) himg
          (by simp [readStamp_message_id, readStamp_to_agent, hmid, hto]) ?_
        intro x hx hpx
        rw [hmsg] at hx
        obtain ⟨x0, hx0, hup⟩ := List.mem_map.mp hx
        by_cases hp0 : (x0.message_id == mid && x0.to_agent == caller) = true
        · rw [if_pos hp0] at hup
          exact ⟨x0.read_at.getD now, by rw [← hup]; rfl⟩
        · rw [if_neg (by simpa using hp0)] at hup
          subst hup
          exact absurd hpx hp0
  · intro caller mid now s h
    have hf : s.messages.find?
        (fun x => x.message_id == mid && x.to_agent == caller) = none := by
      rw [List.find?_eq_none]
      intro x hx
      have hnx := h x hx
      simp only [Bool.and_eq_true, beq_iff_eq]
      intro hc
      exact hnx ⟨hc.1, hc.2⟩
    simp only [markRead, hf]

/-- C8 witness at a concrete store: first mark succeeds, and a foreign
message id yields NotFound with the store unchanged. -/
theorem C8_mark_read_idempotent_witness :
    (markRead 2 0 40 ⟨[("h", 1), ("h2", 2)], [], [],
        [⟨0, 1, 2, none, "hi", 30, none⟩], [], [], [], 3⟩).1 = .ok () ∧
    markRead 2 5 40 ⟨[("h", 1), ("h2", 2)], [], [],
        [⟨0, 1, 2, none, "hi", 30, none⟩], [], [], [], 3⟩ =
      (.error .notFound, ⟨[("h", 1), ("h2", 2)], [], [],
        [⟨0, 1, 2, none, "hi", 30, none⟩], [], [], [], 3⟩) := by
  obtain ⟨h1, h2⟩ := C8_mark_read_idempotent
  constructor
  · exact (h1 2 0 40 41 _ ⟨0, 1, 2, none, "hi", 30, none⟩ (by decide) rfl rfl).1
  · exact h2 2 5 40 _ (by decide)

end MoltGrid

namespace MoltGrid

theorem memSet_memory (a : Nat) (ns k v : String) (ttl : Option Nat)
    (now : Nat) (s : State) :
    (memSet a ns k v ttl now s).2.memory = s.memory ∨
    ∃ exp, (memSet a ns k v ttl now s).2.memory =
      memUpsert a ns k v exp now s.memory := by
  unfold memSet
  split
  · split
    · exact .inl rfl
    · rename_i t _
      exact .inr ⟨some (now + t), rfl⟩
  · exact .inr ⟨none, rfl⟩

theorem memSet_only_memory (a : Nat) (ns k v : String) (ttl : Option Nat)
    (now : Nat) (s : State) :
    (memSet a ns k v ttl now s).2 =
      { s with memory := (memSet a ns k v ttl now s).2.memory } := by
  unfold memSet
  split
  · split
    · rfl
    · rfl
  · rfl

theorem memMatch_false_of_agent {a b : Nat} (hab : a ≠ b) {ns k : String}
    {e : MemoryEntry} (he : e.agent_id = a) : memMatch b ns k e = false := by
  simp [memMatch, he, hab]

/-- C3: tenant isolation for private memory.  For distinct agents A and B:
A's private-memory writes (set and delete) leave every private-memory read
of B and B's row set unchanged, and a set touches nothing but the memory
table; B's get never returns a row of another agent, and a key set only by
A reads NotFound for B; B's set and delete cannot mutate or delete any of
A's rows. -/
theorem C3_private_memory_isolation (A B : Nat) (hAB : A ≠ B) :
    (∀ (ns k v : String) (ttl : Option Nat) (now : Nat) (ns' k' : String)
        (now' : Nat) (s : State),
        memGet B ns' k' now' (memSet A ns k v ttl now s).2 =
          memGet B ns' k' now' s) ∧
    (∀ (ns k v : String) (ttl : Option Nat) (now : Nat) (s : State),
        (memSet A ns k v ttl now s).2.memory.filter (fun e => e.agent_id == B) =
          s.memory.filter (fun e => e.agent_id == B) ∧
        (memSet A ns k v ttl now s).2 =
          { s with memory := (memSet A ns k v ttl now s).2.memory }) ∧
    (∀ (ns k : String) (now : Nat) (ns' k' : String) (now' : Nat) (s : State),
        memGet B ns' k' now' (memDelete A ns k now s).2 =
          memGet B ns' k' now' s) ∧
    (∀ (ns k : String) (now : Nat) (s : State) (e : MemoryEntry),
        memGet B ns k now s = .ok e → e.agent_id = B) ∧
    (∀ (ns k v : String) (ttl : Option Nat) (now now' : Nat) (s : State),
        (∀ e ∈ s.memory, e.agent_id = B → ¬(e.ns = ns ∧ e.key = k)) →
        memGet B ns k now' (memSet A ns k v ttl now s).2 = .error .notFound) ∧
    (∀ (ns k v : String) (ttl : Option Nat) (now : Nat) (s : State)
        (e : MemoryEntry), e ∈ s.memory → e.agent_id = A →
        e ∈ (memSet B ns k v ttl now s).2.memory) ∧
    (∀ (ns k : String) (now : Nat) (s : State) (e : MemoryEntry),
        e ∈ s.memory → e.agent_id = A → e ∈ (memDelete B ns k now s).2.memory) := by
  have hget : ∀ (ns' k' : String) (now' : Nat) (s' s : State),
      s'.memory = s.memory → memGet B ns' k' now' s' = memGet B ns' k' now' s := by
    intro ns' k' now' s' s hmem
    unfold memGet
    rw [hmem]
  refine ⟨?_, ?_, ?_, ?_, ?_, ?_, ?_⟩
  · intro ns k v ttl now ns' k' now' s
    rcases memSet_memory A ns k v ttl now s with hmem | ⟨exp, hmem⟩
    · exact hget ns' k' now' _ s hmem
    · unfold memGet
      rw [hmem, memUpsert_find_other hAB ns k v exp now ns' k' now']
  · intro ns k v ttl now s
    refine ⟨?_, memSet_only_memory A ns k v ttl now s⟩
    rcases memSet_memory A ns k v ttl now s with hmem | ⟨exp, hmem⟩
    · rw [hmem]
    · rw [hmem, memUpsert_filter_other hAB ns k v exp now]
  · intro ns k now ns' k' now' s
    unfold memDelete
    cases hf : s.memory.find? (fun e => memMatch A ns k e && !memExpired e now) with
    | none => rfl
    | some e0 =>
      have hfd : (s.memory.filter (fun e => !memMatch A ns k e)).find?
          (fun e => memMatch B ns' k' e && !memExpired e now') =
          s.memory.find? (fun e => memMatch B ns' k' e && !memExpired e now') := by
        apply find?_filter_of_excluded
        intro e he hre
        have hA : e.agent_id = A := memMatch_agent (by simpa using hre)
        simp [memMatch_false_of_agent hAB hA]
      show (match (s.memory.filter (fun e => !memMatch A ns k e)).find?
          (fun e => memMatch B ns' k' e && !memExpired e now') with
        | some e => (Except.ok e : Except ApiError MemoryEntry)
        | none => Except.error ApiError.notFound) = memGet B ns' k' now' s
      rw [hfd]
      rfl
  · intro ns k now s e hg
    unfold memGet at hg
    cases hf : s.memory.find? (fun x => memMatch B ns k x && !memExpired x now) with
    | none => rw [hf] at hg; cases hg
    | some e0 =>
      rw [hf] at hg
      cases hg
      have hp := List.find?_some hf
      simp only [Bool.and_eq_true] at hp
      exact memMatch_agent hp.1
  · intro ns k v ttl now now' s hnone
    rcases memSet_memory A ns k v ttl now s with hmem | ⟨exp, hmem⟩
    · unfold memGet
      rw [hmem]
      rw [show s.memory.find? (fun e => memMatch B ns k e && !memExpired e now') =
          none from ?_]
      rw [List.find?_eq_none]
      intro x hx
      simp only [Bool.and_eq_true, not_and]
      intro hmx _
      have h1 := memMatch_agent hmx
      have h2 : x.ns = ns ∧ x.key = k := by
        unfold memMatch at hmx
        simp only [Bool.and_eq_true, beq_iff_eq] at hmx
        exact ⟨hmx.1.2, hmx.2⟩
      exact absurd h2 (hnone x hx h1)
    · unfold memGet
      rw [hmem, memUpsert_find_other hAB ns k v exp now ns k]
      rw [show s.memory.find? (fun e => memMatch B ns k e && !memExpired e now') =
          none from ?_]
      rw [List.find?_eq_none]
      intro x hx
      simp only [Bool.and_eq_true, not_and]
      intro hmx _
      have h1 := memMatch_agent hmx
      have h2 : x.ns = ns ∧ x.key = k := by
        unfold memMatch at hmx
        simp only [Bool.and_eq_true, beq_iff_eq] at hmx
        exact ⟨hmx.1.2, hmx.2⟩
      exact absurd h2 (hnone x hx h1)
  · intro ns k v ttl now s e he hA
    rcases memSet_memory B ns k v ttl now s with hmem | ⟨exp, hmem⟩
    · rw [hmem]; exact he
    · rw [hmem]
      exact memUpsert_preserves_other hAB ns k v exp now s.memory e he hA
  · intro ns k now s e he hA
    unfold memDelete
    cases hf : s.memory.find? (fun x => memMatch B ns k x && !memExpired x now) with
    | none => exact he
    | some e0 =>
      refine List.mem_filter.mpr ⟨he, ?_⟩
      simp only [Bool.not_eq_true']
      exact memMatch_false_of_agent hAB hA

end MoltGrid

namespace MoltGrid

/-- C3 witness, the spec's tenant-isolation scenario: agent 1 sets
secret=mine in private memory; agent 2's get returns NotFound. -/
theorem C3_private_memory_isolation_witness :
    memGet 2 "default" "secret" 10
      (memSet 1 "default" "secret" "mine" none 5 initState).2 =
      .error .notFound := by
  have h := (C3_private_memory_isolation 1 2 (by decide)).2.2.2.2.1
  exact h "default" "secret" "mine" none 5 10 initState
    (by intro e he; simp [initState] at he)

/-- C6: after a scheduler tick at time T, the jobs appended to the queue
correspond one-to-one, in order, to the tasks with enabled true and
next_run_at at or before T, each new job pending with attempts 0 and
carrying its task's agent, queue_name, payload, priority and max_attempts;
the pre-existing jobs keep their ids (none lost, none duplicated); every
fired task gets last_run_at = T and next_run_at strictly beyond T while
every other task is left unchanged; and an immediate second tick at the same
instant fires nothing. -/
theorem C6_scheduler_tick (T : Nat) (s : State)
    (hper : ∀ t ∈ s.tasks, 1 ≤ t.cron_period) :
    List.Forall₂ (fun (t : ScheduledTask) (j : Job) =>
        j.status = .pending ∧ j.attempts = 0 ∧ j.agent_id = t.agent_id ∧
        j.queue_name = t.queue_name ∧ j.payload = t.payload ∧
        j.priority = t.priority ∧ j.max_attempts = t.max_attempts)
      (s.tasks.filter (isDue T)) ((tick T s).jobs.drop s.jobs.length) ∧
    ((tick T s).jobs.take s.jobs.length).map Job.job_id = s.jobs.map Job.job_id ∧
    (∀ t ∈ s.tasks,
      (isDue T t = true →
        { t with last_run_at := some T,
                 next_run_at := cronNext t.cron_period T } ∈ (tick T s).tasks ∧
        T < cronNext t.cron_period T) ∧
      (isDue T t = false → t ∈ (tick T s).tasks)) ∧
    (tick T s).tasks.filter (isDue T) = [] ∧
    (tick T (tick T s)).jobs.length = (tick T s).jobs.length := by
  have hjobs : (tick T s).jobs =
      s.jobs.map (sweepJob T) ++ taskJobs s.nextId (s.tasks.filter (isDue T)) := rfl
  have htasks : (tick T s).tasks = s.tasks.map (fun t =>
      if isDue T t then
        { t with last_run_at := some T, next_run_at := cronNext t.cron_period T }
      else t) := rfl
  have hlen : s.jobs.length = (s.jobs.map (sweepJob T)).length :=
    (List.length_map _ _).symm
  have hfil : (tick T s).tasks.filter (isDue T) = [] := by
    rw [htasks]
    rw [List.filter_eq_nil_iff]
    intro x hx
    obtain ⟨t, htm, rfl⟩ := List.mem_map.mp hx
    by_cases hdue : isDue T t = true
    · rw [if_pos hdue]
      have hgt := cronNext_gt t.cron_period T (hper t htm)
      simp only [isDue, Bool.and_eq_true, decide_eq_true_eq, not_and]
      intro _
      omega
    · rw [if_neg (by simpa using hdue)]
      simpa using hdue
  refine ⟨?_, ?_, ?_, hfil, ?_⟩
  · rw [hjobs, hlen, List.drop_left]
    exact taskJobs_forall₂ _ _
  · rw [hjobs, hlen, List.take_left]
    exact sweep_ids T s.jobs
  · intro t ht
    constructor
    · intro hdue
      refine ⟨?_, cronNext_gt _ _ (hper t ht)⟩
      rw [htasks]
      have heq : (if isDue T t = true then
          { t with last_run_at := some T, next_run_at := cronNext t.cron_period T }
          else t) =
          { t with last_run_at := some T, next_run_at := cronNext t.cron_period T } :=
        if_pos hdue
      exact heq ▸ List.mem_map_of_mem _ ht
    · intro hnd
      rw [htasks]
      have heq : (if isDue T t = true then
          { t with last_run_at := some T, next_run_at := cronNext t.cron_period T }
          else t) = t := if_neg (by simp [hnd])
      exact heq ▸ List.mem_map_of_mem _ ht
  · have hjobs2 : (tick T (tick T s)).jobs =
        (tick T s).jobs.map (sweepJob T) ++
          taskJobs (tick T s).nextId ((tick T s).tasks.filter (isDue T)) := rfl
    rw [hjobs2, hfil]
    show ((tick T s).jobs.map (sweepJob T) ++ []).length = (tick T s).jobs.length
    rw [List.append_nil, List.length_map]

/-- C6 witness at a concrete store: one due task, one fresh pending job
carrying its payload, and nothing fired by the second tick. -/
theorem C6_scheduler_tick_witness :
    (tick 100
        ⟨[], [], [], [], [], [⟨0, 7, 1, "tick-test", "tick-q", 5, 3, true, 60, none⟩],
          [], 1⟩).jobs.map (fun j => (j.status, j.payload, j.queue_name)) =
      [(.pending, "tick-test", "tick-q")] ∧
    (tick 100 (tick 100
        ⟨[], [], [], [], [], [⟨0, 7, 1, "tick-test", "tick-q", 5, 3, true, 60, none⟩],
          [], 1⟩)).jobs.length =
      (tick 100
        ⟨[], [], [], [], [], [⟨0, 7, 1, "tick-test", "tick-q", 5, 3, true, 60, none⟩],
          [], 1⟩).jobs.length := by
  have h := C6_scheduler_tick 100
    ⟨[], [], [], [], [], [⟨0, 7, 1, "tick-test", "tick-q", 5, 3, true, 60, none⟩],
      [], 1⟩ (by intro t htm; simp at htm; rw [htm])
  exact ⟨by decide, h.2.2.2.2⟩

end MoltGrid

namespace MoltGrid

/-! ## Reachability of the scenario states -/

theorem reachable_scState1 : Reachable scState1 :=
  .step .init (.submitS 7 "default" "work" 5 2 (by omega) initState)

theorem reachable_scState2 : Reachable scState2 :=
  .step reachable_scState1 (.claimS 7 none 100 scState1)

theorem reachable_scState3 : Reachable scState3 :=
  .step reachable_scState2 (.failS 7 0 "boom1" 101 scState2)

theorem reachable_scState4 : Reachable scState4 :=
  .step reachable_scState3 (.claimS 7 none 102 scState3)

theorem reachable_scState5 : Reachable scState5 :=
  .step reachable_scState4 (.failS 7 0 "boom2" 103 scState4)

theorem reachable_prState1 : Reachable prState1 :=
  .step .init (.submitS 7 "default" "low" 1 3 (by omega) initState)

theorem reachable_prState2 : Reachable prState2 :=
  .step reachable_prState1 (.submitS 7 "default" "high" 10 3 (by omega) prState1)

/-- C2: claim on a store with no eligible pending job reports empty and
changes nothing; a successful claim returns the claim-stamped copy of an
eligible pending job that strictly precedes, in the order priority
descending then created_at ascending, every other eligible pending job, and
marks exactly that job claimed in the resulting store; and after submitting
a priority-1 job then a priority-10 job, claim returns the priority-10
payload. -/
theorem C2_claim_order :
    (∀ (c : Nat) (q : Option String) (now : Nat) (s : State),
        (∀ j ∈ s.jobs, claimable c q j = false) → claimJob c q now s = (none, s)) ∧
    (∀ (c : Nat) (q : Option String) (now : Nat) (s : State), Reachable s →
        ∀ (jc : Job) (s' : State), claimJob c q now s = (some jc, s') →
        ∃ j0 ∈ s.jobs, claimable c q j0 = true ∧ jc = claimStamp c now j0 ∧
          jc.status = .claimed ∧ jc ∈ s'.jobs ∧
          (∀ j' ∈ s.jobs, claimable c q j' = true → j' ≠ j0 → JobBefore j0 j') ∧
          (∀ j' ∈ s.jobs, j'.job_id ≠ j0.job_id → j' ∈ s'.jobs)) ∧
    (claimJob 7 none 50 prState2).1.map Job.payload = some "high" := by
  refine ⟨?_, ?_, by decide⟩
  · intro c q now s hall
    have hfil : s.jobs.filter (claimable c q) = [] := by
      rw [List.filter_eq_nil_iff]
      intro x hx
      simp [hall x hx]
    unfold claimJob
    rw [hfil]
    rfl
  · intro c q now s hr jc s' hcl
    unfold claimJob at hcl
    cases hsel : selectJob (s.jobs.filter (claimable c q)) with
    | none =>
      rw [hsel] at hcl
      have h1 : (none : Option Job) = some jc := congrArg Prod.fst hcl
      exact Option.noConfusion h1
    | some j0 =>
      rw [hsel] at hcl
      have h1 : some (claimStamp c now j0) = some jc := congrArg Prod.fst hcl
      have hjc : jc = claimStamp c now j0 := (Option.some.inj h1).symm
      have hs' : s' = { s with jobs := s.jobs.map (fun j =>
          if j.job_id == j0.job_id then claimStamp c now j else j) } :=
        (congrArg Prod.snd hcl).symm
      obtain ⟨hmem, hcla⟩ := List.mem_filter.mp (selectJob_mem hsel)
      obtain ⟨hinv, hnodup, _⟩ := reachable_inv hr
      refine ⟨j0, hmem, hcla, hjc, by rw [hjc]; rfl, ?_, ?_, ?_⟩
      · rw [hjc, hs']
        have heq : (if j0.job_id == j0.job_id then claimStamp c now j0 else j0) =
            claimStamp c now j0 := if_pos (by simp)
        exact heq ▸ List.mem_map_of_mem _ hmem
      · intro j' hj' hcla' hne
        have hnb := selectJob_not_before hsel j' (List.mem_filter.mpr ⟨hj', hcla'⟩)
        have hcr : j'.created_at ≠ j0.created_at := by
          intro he
          apply hne
          apply List.inj_on_of_nodup_map hnodup hj' hmem
          rw [← (hinv j' hj').1.2.2.2.2, ← (hinv j0 hmem).1.2.2.2.2]
          exact he
        rcases jobBefore_total hcr with hb | hb
        · exact absurd hb hnb
        · exact hb
      · intro j' hj' hne
        rw [hs']
        have heq : (if j'.job_id == j0.job_id then claimStamp c now j' else j') =
            j' := if_neg (by simpa using hne)
        exact heq ▸ List.mem_map_of_mem _ hj'

/-- C2 witness at a concrete store: the freshly initialized store has no
eligible job, so claim reports empty and changes nothing. -/
theorem C2_claim_order_witness :
    claimJob 7 none 0 initState = (none, initState) :=
  C2_claim_order.1 7 none 0 initState (by intro j hj; simp [initState] at hj)

end MoltGrid

namespace MoltGrid

/-- C1: in every reachable store every job satisfies attempts bounded by
max_attempts, and a dead job has attempts at or above max_attempts; fail on
a claimed job succeeds and resets it to pending with claim fields cleared
while attempts stay below max_attempts, or marks it dead once attempts have
reached max_attempts; claim never returns a job that is dead; and the
max_attempts = 2 ladder claim, fail, claim, fail leaves the single job dead
with attempts 2, a further claim reports empty, and replay returns it to
pending. -/
theorem C1_retry_ladder :
    (∀ s, Reachable s → ∀ j ∈ s.jobs,
        j.attempts ≤ j.max_attempts ∧
        (j.status = .dead → j.max_attempts ≤ j.attempts)) ∧
    (∀ (st : State), Reachable st → ∀ (c : Nat) (r : String) (now : Nat) (j : Job),
        j ∈ st.jobs → j.status = .claimed →
        (failJob c j.job_id r now st).1 = .ok () ∧
        (j.attempts < j.max_attempts →
          { j with status := .pending, claimed_by := none, claimed_at := none,
                   visibility_deadline := none, error := some r } ∈
            (failJob c j.job_id r now st).2.jobs) ∧
        (j.max_attempts ≤ j.attempts →
          { j with status := .dead, error := some r } ∈
            (failJob c j.job_id r now st).2.jobs)) ∧
    (∀ s, Reachable s → ∀ j ∈ s.jobs, j.status = .dead →
        ∀ (c : Nat) (q : Option String) (now : Nat) (jc : Job) (s' : State),
          claimJob c q now s = (some jc, s') → jc.job_id ≠ j.job_id) ∧
    (scState5.jobs.map (fun j => (j.status, j.attempts, j.max_attempts)) =
        [(.dead, 2, 2)] ∧
      (claimJob 7 none 104 scState5).1 = none ∧
      (replayJob 7 0 scState5).2.jobs.map Job.status = [.pending]) := by
  refine ⟨?_, ?_, ?_, by refine ⟨by decide, by decide, by decide⟩⟩
  · intro s hr j hj
    obtain ⟨hinv, _, _⟩ := reachable_inv hr
    exact ⟨(hinv j hj).1.1, (hinv j hj).1.2.2.2.1⟩
  · intro st hr c r now j hj hcl
    obtain ⟨hinv, hnodup, _⟩ := reachable_inv hr
    have hf : st.jobs.find? (fun x => x.job_id == j.job_id) = some j :=
      find_by_id hnodup hj
    have hb : (j.status == JobStatus.claimed) = true := by simp [hcl]
    have hstate : failJob c j.job_id r now st =
        (.ok (), { st with jobs := st.jobs.map (fun x =>
            if x.job_id == j.job_id then failStamp r x else x) }) := by
      simp only [failJob, hf]
      rw [if_pos hb]
    rw [hstate]
    refine ⟨rfl, ?_, ?_⟩
    · intro hlt
      have heq : (if j.job_id == j.job_id then failStamp r j else j) =
          { j with status := .pending, claimed_by := none, claimed_at := none,
                   visibility_deadline := none, error := some r } := by
        rw [if_pos (by simp)]
        unfold failStamp
        rw [if_pos hlt]
      exact heq ▸ List.mem_map_of_mem _ hj
    · intro hge
      have heq : (if j.job_id == j.job_id then failStamp r j else j) =
          { j with status := .dead, error := some r } := by
        rw [if_pos (by simp)]
        unfold failStamp
        rw [if_neg (by omega)]
      exact heq ▸ List.mem_map_of_mem _ hj
  · intro s hr j hj hdead c q now jc s' hcl
    obtain ⟨hinv, hnodup, _⟩ := reachable_inv hr
    unfold claimJob at hcl
    cases hsel : selectJob (s.jobs.filter (claimable c q)) with
    | none =>
      rw [hsel] at hcl
      exact absurd (congrArg Prod.fst hcl) (by simp)
    | some j0 =>
      rw [hsel] at hcl
      have h1 : some (claimStamp c now j0) = some jc := congrArg Prod.fst hcl
      have hjc : jc = claimStamp c now j0 := (Option.some.inj h1).symm
      obtain ⟨hmem, hcla⟩ := List.mem_filter.mp (selectJob_mem hsel)
      intro hid
      have hj0id : j0.job_id = j.job_id := by
        rw [hjc, claimStamp_id] at hid
        exact hid
      have hj0eq : j0 = j := List.inj_on_of_nodup_map hnodup hmem hj hj0id
      have hpend := claimable_pending hcla
      rw [hj0eq, hdead] at hpend
      exact JobStatus.noConfusion hpend

/-- C1 witness at the concrete retry-ladder run: the invariant instantiated
at the dead job of scState5, and the fail behaviour instantiated at the
claimed job of scState2. -/
theorem C1_retry_ladder_witness :
    ((⟨0, 7, "default", "work", 5, .dead, 2, 2, some 7, some 102, none, none,
        some "boom2", 0, some 402⟩ : Job).attempts ≤
      (⟨0, 7, "default", "work", 5, .dead, 2, 2, some 7, some 102, none, none,
        some "boom2", 0, some 402⟩ : Job).max_attempts) ∧
    (failJob 9 0 "oops" 200 scState2).1 = .ok () := by
  constructor
  · exact (C1_retry_ladder.1 scState5 reachable_scState5 _ (by decide)).1
  · exact (C1_retry_ladder.2.1 scState2 reachable_scState2 9 "oops" 200
      ⟨0, 7, "default", "work", 5, .claimed, 1, 2, some 7, some 100, none, none,
        none, 0, some 400⟩ (by decide) rfl).1

end MoltGrid
